import Mathlib

/-!
# Verification of the arandu-repro reproduction/review backend

Shallow embedding of the parts of `backend/app` that the checked claims
touch, together with theorems settling each claim.

Conventions:
* Python `str` values that the code manipulates character-by-character are
  embedded as `List Char` (abbreviated `Str`); configuration strings that are
  only compared for equality are embedded as Lean `String`.
* Python `float` quantities are embedded as exact rationals (`ℚ`); the code
  under verification performs no float-rounding-sensitive arithmetic on the
  paths exercised by the theorems, except where noted.
* Library functions outside the repository (`re.search`, `numpy.sqrt`,
  `docker`) are modelled as explicit function parameters, with the properties
  the surrounding repository code relies on stated as hypotheses.
* Character-class helpers (`strip`, `lower`, `\s`) are modelled at ASCII
  granularity, which covers every concrete input appearing in the theorems.
-/

namespace AranduRepro

/-- Embedded Python string: a list of characters (character = code point). -/
abbrev Str := List Char

/-- ASCII model of Python's whitespace class (`str.strip`, regex `\s`). -/
def isWs (c : Char) : Bool :=
  c = ' ' || c = '\t' || c = '\n' || c = '\r' || c = '\x0b' || c = '\x0c'

/-- Python `str.strip()`: drop whitespace from both ends. -/
def pyStrip (s : Str) : Str :=
  ((s.dropWhile isWs).reverse.dropWhile isWs).reverse

/-- ASCII model of Python `str.lower()`. -/
def pyLower (s : Str) : Str := s.map Char.toLower

/-- UTF-8 byte length of an embedded string (`len(s.encode("utf-8"))`). -/
def utf8Len (s : Str) : Nat := (s.map Char.utf8Size).sum

/-! ## C5 — `QualityScore` storage check
(`backend/app/models/quality_score.py`, `__table_args__` lines 54-67).

The storage layer enforces the scope/id shape through the SQL constraint
`check_quality_score_scope`.  Its boolean expression never evaluates to SQL
NULL (`scope` is a NOT NULL column and the other atoms are `IS [NOT] NULL`
tests), so a row is accepted by the check exactly when the expression is
true, which the embedding states directly. -/

/-- `QualityScoreScope` enum values (`backend/app/models/enums.py`). -/
inductive QScope where
  | paper
  | version
deriving DecidableEq, Repr

/-- The columns of `quality_scores` that the scope check reads. -/
structure QSRow where
  scope : QScope
  paperId : Option Nat
  paperVersionId : Option Nat
deriving DecidableEq, Repr

/-- The SQL check constraint `check_quality_score_scope`
(quality_score.py lines 55-59):
`(scope = 'paper' AND paper_id IS NOT NULL AND paper_version_id IS NULL) OR
 (scope = 'version' AND paper_version_id IS NOT NULL AND paper_id IS NULL)`. -/
def checkQualityScoreScope (r : QSRow) : Bool :=
  (r.scope = QScope.paper ∧ r.paperId.isSome ∧ r.paperVersionId = none) ∨
  (r.scope = QScope.version ∧ r.paperVersionId.isSome ∧ r.paperId = none)

/-! ## C1 — sandbox executor preflight
(`backend/app/worker/executor.py`, `execute_command` lines 87-143).

`execute_command` performs its security validation (lines 88-104) strictly
before computing the container-run arguments (lines 106-141) and calling
`client.containers.run` (line 143).  The embedding captures everything the
function does from the start of the security validation up to the
`containers.run` call: it either returns the `LaunchArgs` that would be
passed to `containers.run`, or an `Except.error` for a raise that happens
before any container is created.  `_parse_memory_limit` interprets the
memory string through Python `float`/`int` parsing; that library parsing is
the `parseMem` parameter (a `none` result models the `ValueError` that the
generic handler converts to `ExecutionError`, still before any launch). -/

/-- The configuration fields read by `execute_command`
(`backend/app/config.py`). -/
structure ExecSettings where
  dockerUser : String
  dockerUserUid : Option Int
  dockerCpuLimit : ℚ
  dockerMemoryLimit : String
  dockerNetworkMode : String
  dockerReadonlyRootfs : Bool

/-- The keyword arguments assembled for `client.containers.run`
(executor.py lines 125-141), restricted to the security-relevant ones. -/
structure LaunchArgs where
  user : String
  networkMode : String
  cpuQuota : Int
  cpuPeriod : Int
  memLimit : Nat
  readOnly : Bool
deriving DecidableEq, Repr

/-- Python `str.strip().lower()` on a `String`. -/
def pyStripLower (s : String) : String :=
  String.mk (pyLower (pyStrip s.toList))

/-- Python `str.strip()` on a `String`. -/
def pyStripStr (s : String) : String := String.mk (pyStrip s.toList)

/-- `execute_command` from the security validation (executor.py line 88) to
the `containers.run` call (line 143): `Except.error` means `ExecutionError`
raised before any container is created; `Except.ok` carries the arguments of
the attempted launch.  `parseMem` models `_parse_memory_limit`'s use of
Python number parsing (`none` = `ValueError`). -/
def executeCommandPrelaunch (parseMem : String → Option Nat)
    (s : ExecSettings) : Except String LaunchArgs := do
  let dockerUserStr := pyStripLower s.dockerUser
  if dockerUserStr = "" ∨ dockerUserStr = "root" ∨ dockerUserStr = "0" ∨
      s.dockerUserUid = some 0 then
    throw "Security violation: containers must run as non-root user"
  if s.dockerCpuLimit ≤ 0 then
    throw "Security violation: CPU limit must be greater than 0"
  if s.dockerMemoryLimit = "" ∨ pyStripStr s.dockerMemoryLimit = "" then
    throw "Security violation: memory limit must be set"
  if s.dockerNetworkMode ≠ "none" ∧ s.dockerNetworkMode ≠ "bridge" then
    throw "Security violation: invalid network mode"
  let cpuQuota : Int := ⌊s.dockerCpuLimit * 1000000000⌋
  match parseMem s.dockerMemoryLimit with
  | none => throw "Unexpected error during execution: memory limit parse"
  | some memoryBytes =>
      pure { user := s.dockerUser
             networkMode := s.dockerNetworkMode
             cpuQuota := cpuQuota
             cpuPeriod := 1000000
             memLimit := memoryBytes
             readOnly := s.dockerReadonlyRootfs }

/-! ## C2 — commit order in `process_job`
(`backend/app/worker/main.py`, `process_job` lines 56-189, success path).

The worker mutates the ORM session and calls `db.commit()` at fixed points.
The embedding transcribes the success path as the exact sequence of
session-visible actions, in source order, and gives commits copy-on-commit
semantics: observers (other sessions) see only the committed snapshot. -/

/-- `JobStatus` (`backend/app/models/job.py`). -/
inductive JStatus where
  | pending
  | running
  | completed
  | failed
deriving DecidableEq, Repr

/-- `ArtifactType` (`backend/app/models/artifact.py`). -/
inductive AType where
  | report
  | notebook
  | badge
deriving DecidableEq, Repr

/-- One session-visible action of the worker's success path. -/
inductive WorkerAction where
  | setStatus (s : JStatus)
  | setDetectedEnv
  | addRun
  | addArtifact (t : AType)
  | commit
deriving DecidableEq, Repr

/-- The job-related database rows an observer can see. -/
structure DbJobState where
  jobStatus : JStatus
  detectedEnvSet : Bool
  runInserted : Bool
  artifacts : List AType
deriving DecidableEq, Repr

/-- The worker session: uncommitted pending state plus the committed
snapshot visible to other sessions. -/
structure SessionState where
  pending : DbJobState
  committed : DbJobState
deriving DecidableEq, Repr

/-- Apply one worker action to the session. -/
def applyAction (st : SessionState) : WorkerAction → SessionState
  | WorkerAction.setStatus s =>
      { st with pending := { st.pending with jobStatus := s } }
  | WorkerAction.setDetectedEnv =>
      { st with pending := { st.pending with detectedEnvSet := true } }
  | WorkerAction.addRun =>
      { st with pending := { st.pending with runInserted := true } }
  | WorkerAction.addArtifact t =>
      { st with pending :=
          { st.pending with artifacts := st.pending.artifacts ++ [t] } }
  | WorkerAction.commit => { st with committed := st.pending }

/-- Session at worker start: job row is `pending`, nothing else exists. -/
def initialSession : SessionState :=
  { pending := ⟨JStatus.pending, false, false, []⟩
    committed := ⟨JStatus.pending, false, false, []⟩ }

/-- The success path of `process_job`, transcribed in source order:
status→running + commit (main.py lines 70-72), detected_environment + commit
(lines 89-90), `db.add(run)` + commit (lines 113-124), the three
`db.add(..._artifact)` calls (lines 142, 158, 174) and their commit
(line 176), then status→completed + commit (lines 180-182). -/
def processJobSuccessActions : List WorkerAction := [
  WorkerAction.setStatus JStatus.running, WorkerAction.commit,
  WorkerAction.setDetectedEnv, WorkerAction.commit,
  WorkerAction.addRun, WorkerAction.commit,
  WorkerAction.addArtifact AType.report,
  WorkerAction.addArtifact AType.notebook,
  WorkerAction.addArtifact AType.badge,
  WorkerAction.commit,
  WorkerAction.setStatus JStatus.completed, WorkerAction.commit]

/-- Session after the first `n` actions of the success path. -/
def sessionAfter (n : Nat) : SessionState :=
  (processJobSuccessActions.take n).foldl applyAction initialSession

/-! ## C3 — log truncation
(`backend/app/worker/executor.py`, `_truncate_log` lines 249-260). -/

/-- The `while` loop of `_truncate_log` (lines 255-257): drop the last
character until the UTF-8 byte length fits.  `fuel` bounds the number of
iterations; the loop drops one character per iteration, so fuel equal to the
string length makes the embedding exhaust the loop exactly. -/
def truncShrinkFuel : Nat → Str → Nat → Str
  | 0, t, _ => t
  | fuel + 1, t, maxBytes =>
      if utf8Len t > maxBytes then truncShrinkFuel fuel t.dropLast maxBytes
      else t

/-- The truncation marker appended at line 260: `"\n... [truncated]"`. -/
def truncationMarker : Str := '\n' :: "... [truncated]".toList

/-- `_truncate_log(log_content, max_bytes)` (executor.py lines 249-260). -/
def truncateLog (logContent : Str) (maxBytes : Nat) : Str :=
  if utf8Len logContent ≤ maxBytes then logContent
  else truncShrinkFuel logContent.length logContent maxBytes ++ truncationMarker

/-! ## C4 — `Run.started_at`
(`backend/app/worker/main.py` lines 112-124 and
`backend/app/worker/executor.py` lines 66-68, 196-203).

Wall-clock instants are modelled as abstract `Nat` readings of a monotone
clock; `execute_command` captures the reading at launch (executor.py line
68) and returns it in `ExecutionResult.started_at` (line 201), while
`process_job` builds the `Run` row with a fresh `datetime.now(UTC)` reading
taken at record creation (main.py line 119). -/

/-- The fields of `ExecutionResult` relevant to the timing claim
(executor.py lines 19-27). -/
structure ExecResultM where
  exitCode : Int
  startedAt : Nat
deriving DecidableEq, Repr

/-- `execute_command`'s result as a function of the wall-clock instant at
which the container launch happens: `started_at` is captured at launch
(executor.py line 68) and returned unchanged (line 201). -/
def executeCommandResult (launchInstant : Nat) (exitCode : Int) : ExecResultM :=
  { exitCode := exitCode, startedAt := launchInstant }

/-- The `Run` columns relevant to the timing claim
(`backend/app/models/run.py`). -/
structure RunRow where
  exitCode : Int
  startedAt : Nat
deriving DecidableEq, Repr

/-- The `Run(...)` construction in `process_job` (main.py lines 113-122):
`started_at` is set to `datetime.now(UTC)` evaluated at record-creation time
(line 119, marked `# TODO: Get actual start time from execution`), not to
`execution_result.started_at`. -/
def mkRunRow (executionResult : ExecResultM) (nowAtCreation : Nat) : RunRow :=
  { exitCode := executionResult.exitCode
    startedAt := nowAtCreation }

/-- `true` exactly on `Except.error`, i.e. on a raised exception. -/
def isErr : Except ε α → Bool
  | Except.error _ => true
  | Except.ok _ => false

/-! ## C6 — environment detection
(`backend/app/worker/env_detector.py`, `detect_environment` lines 97-156 and
the four `_parse_*` helpers, lines 159-324).

The repository tree is modelled by the presence and content of the four
manifest files.  `requirements.txt` is kept as its list of lines; the
YAML/TOML files are kept at the granularity the parsers distinguish
(malformed input makes `yaml.safe_load`/`tomli.load` raise, which lines
242-244 / 288-290 / 320-322 convert to `NoEnvironmentDetectedError`; the
`import tomli` inside the TOML parsers can raise `ImportError`, converted at
lines 283-287 / 315-319, which the `tomliAvailable` flag models). -/

/-- Python `pat in s` on strings (substring containment). -/
def strContains (pat : Str) : Str → Bool
  | [] => pat.isPrefixOf []
  | c :: cs => pat.isPrefixOf (c :: cs) || strContains pat cs

/-- Python `s.split(sep, 1)` when `sep` occurs: the text before the leftmost
occurrence and the text after it; `none` when `sep` does not occur. -/
def pySplit1 (sep : Str) : Str → Option (Str × Str)
  | [] => if sep.isPrefixOf ([] : Str) then some ([], []) else none
  | c :: cs =>
      if sep.isPrefixOf (c :: cs) then some ([], (c :: cs).drop sep.length)
      else match pySplit1 sep cs with
           | some (a, b) => some (c :: a, b)
           | none => none

/-- Python `s.split()` with no argument: split on whitespace runs, dropping
empty pieces. -/
def pySplitWs (s : Str) : List Str :=
  (List.splitOnP isWs s).filter (· ≠ [])

/-- `Dependency` (env_detector.py lines 15-27): a name and an optional
version string. -/
structure Dependency where
  name : Str
  version : Option Str
deriving DecidableEq, Repr

/-- One branch of `_parse_requirements_txt`'s operator chain: split the spec
at the first occurrence of `op` and keep the operator in the version
(env_detector.py lines 180-200). -/
def depWithOp (op : Str) (spec : Str) : Dependency :=
  match pySplit1 op spec with
  | some (name, version) => ⟨pyStrip name, some (op ++ pyStrip version)⟩
  | none => ⟨pyStrip spec, none⟩

/-- One line of `_parse_requirements_txt` (env_detector.py lines 162-203):
`none` when the line is skipped. -/
def parseReqLine (line : Str) : Option Dependency :=
  let l := pyStrip line
  if l = [] then none
  else if ['#'].isPrefixOf l then none
  else
    match pySplitWs l with
    | [] => none
    | spec :: _ =>
        some (
          if strContains "==".toList spec then depWithOp "==".toList spec
          else if strContains ">=".toList spec then depWithOp ">=".toList spec
          else if strContains "<=".toList spec then depWithOp "<=".toList spec
          else if strContains "!=".toList spec then depWithOp "!=".toList spec
          else if strContains "~=".toList spec then depWithOp "~=".toList spec
          else if strContains ">".toList spec &&
              !strContains ">=".toList spec then depWithOp ">".toList spec
          else if strContains "<".toList spec &&
              !strContains "<=".toList spec then depWithOp "<".toList spec
          else ⟨pyStrip spec, none⟩)

/-- `_parse_requirements_txt` (env_detector.py lines 159-205) over the lines
of the file.  It performs no YAML/TOML parsing and never raises. -/
def parseRequirementsTxt (fileLines : List Str) : List Dependency :=
  fileLines.filterMap parseReqLine

/-- An entry of a conda `pip:` block: a string item or a non-string item
(the latter is skipped at line 233). -/
inductive YmlPipItem where
  | pstr (s : Str)
  | pother
deriving DecidableEq, Repr

/-- One entry of the top-level `dependencies:` list of `environment.yml`,
at the granularity `_parse_environment_yml` distinguishes (lines 219-240):
a string, a dict with a `pip` list, a dict whose `pip` value is not a list
(or has no `pip` key), or any other value (skipped). -/
inductive YmlDep where
  | plainStr (s : Str)
  | pipList (items : List YmlPipItem)
  | pipNotList
  | otherEntry
deriving DecidableEq, Repr

/-- The content of `environment.yml` as `yaml.safe_load` exposes it:
unparseable YAML, a non-dict document (line 214), or a dict with its
`dependencies` list. -/
inductive YmlContent where
  | malformed
  | notDict
  | doc (deps : List YmlDep)
deriving DecidableEq, Repr

/-- One string entry of a conda `pip:` block (lines 232-240). -/
def condaPipDep (s : Str) : Dependency :=
  if strContains "==".toList s then
    match pySplit1 "==".toList s with
    | some (name, version) => ⟨pyStrip name, some (pyStrip version)⟩
    | none => ⟨pyStrip s, none⟩
  else ⟨pyStrip s, none⟩

/-- One entry of the conda `dependencies:` list (lines 219-240). -/
def condaDep : YmlDep → List Dependency
  | YmlDep.plainStr s =>
      if strContains "=".toList s then
        match pySplit1 "=".toList s with
        | some (name, version) => [⟨pyStrip name, some (pyStrip version)⟩]
        | none => [⟨pyStrip s, none⟩]
      else [⟨pyStrip s, none⟩]
  | YmlDep.pipList items =>
      items.filterMap fun
        | YmlPipItem.pstr s => some (condaPipDep s)
        | YmlPipItem.pother => none
  | YmlDep.pipNotList => []
  | YmlDep.otherEntry => []

/-- `_parse_environment_yml` (env_detector.py lines 208-246): a `yaml`
parse failure is re-raised as `NoEnvironmentDetectedError` (lines 242-244). -/
def parseEnvironmentYml : YmlContent → Except String (List Dependency)
  | YmlContent.malformed => Except.error "Failed to parse environment.yml"
  | YmlContent.notDict => Except.ok []
  | YmlContent.doc deps => Except.ok (deps.flatMap condaDep)

/-- A value of a poetry/Pipfile dependency table: a version string, a dict
with an optional `version` key, or anything else. -/
inductive TomlSpecVal where
  | vstr (s : Str)
  | vdict (version : Option Str)
  | vother
deriving DecidableEq, Repr

/-- One item of a PEP 621 `project.dependencies` list: a string or a
non-string (skipped, lines 275-281). -/
inductive TomlListItem where
  | tstr (s : Str)
  | tother
deriving DecidableEq, Repr

/-- The content of `pyproject.toml` as `tomli.load` exposes it, at the
granularity `_parse_pyproject_toml` distinguishes (lines 258-281). -/
inductive PyprojectContent where
  | malformed
  | poetryTable (deps : List (Str × TomlSpecVal))
  | pep621 (deps : List TomlListItem)
  | neitherTable
deriving DecidableEq, Repr

/-- A name/spec pair of a poetry-style dependency table
(lines 261-270; also the Pipfile `[packages]` table, lines 306-313). -/
def tomlTableDep (name : Str) : TomlSpecVal → Dependency
  | TomlSpecVal.vstr s => ⟨name, some s⟩
  | TomlSpecVal.vdict v => ⟨name, some (v.getD [])⟩
  | TomlSpecVal.vother => ⟨name, none⟩

/-- One string item of a PEP 621 dependency list (lines 275-281). -/
def pep621Dep (s : Str) : Dependency :=
  if strContains "==".toList s then
    match pySplit1 "==".toList s with
    | some (name, version) => ⟨pyStrip name, some (pyStrip version)⟩
    | none => ⟨pyStrip s, none⟩
  else ⟨pyStrip s, none⟩

/-- `_parse_pyproject_toml` (env_detector.py lines 249-292): raises when
`tomli` is unavailable (lines 283-287) or the TOML is malformed
(lines 288-290); the poetry table wins over PEP 621 and skips `python`. -/
def parsePyprojectToml (tomliAvailable : Bool) :
    PyprojectContent → Except String (List Dependency)
  | c =>
    if ¬tomliAvailable then
      Except.error "tomli required to parse pyproject.toml"
    else
      match c with
      | PyprojectContent.malformed =>
          Except.error "Failed to parse pyproject.toml"
      | PyprojectContent.poetryTable deps =>
          Except.ok (deps.filterMap fun (name, spec) =>
            if name = "python".toList then none
            else some (tomlTableDep name spec))
      | PyprojectContent.pep621 deps =>
          Except.ok (deps.filterMap fun
            | TomlListItem.tstr s => some (pep621Dep s)
            | TomlListItem.tother => none)
      | PyprojectContent.neitherTable => Except.ok []

/-- The content of `Pipfile` as `tomli.load` exposes it: unparseable, or
its `[packages]` table (missing table = empty, line 305). -/
inductive PipfileContent where
  | malformed
  | pkgs (packages : List (Str × TomlSpecVal))
deriving DecidableEq, Repr

/-- `_parse_pipfile` (env_detector.py lines 295-324). -/
def parsePipfile (tomliAvailable : Bool) :
    PipfileContent → Except String (List Dependency)
  | c =>
    if ¬tomliAvailable then
      Except.error "tomli required to parse Pipfile"
    else
      match c with
      | PipfileContent.malformed => Except.error "Failed to parse Pipfile"
      | PipfileContent.pkgs packages =>
          Except.ok (packages.map fun (name, spec) => tomlTableDep name spec)

/-- The repository tree restricted to the four manifests
`detect_environment` probes for. -/
structure RepoTree where
  requirementsTxt : Option (List Str)
  environmentYml : Option YmlContent
  pyprojectToml : Option PyprojectContent
  pipfile : Option PipfileContent

/-- `EnvironmentInfo` (env_detector.py lines 52-74). -/
structure EnvironmentInfo where
  envType : String
  dependencies : List Dependency
  detectedFiles : List String
  baseImage : String
deriving DecidableEq, Repr

/-- The scan state threaded through `detect_environment`'s four blocks:
`detected_files`, `env_type`, `dependencies` (lines 98-100). -/
abbrev DetectSt := List String × Option String × List Dependency

/-- The `requirements.txt` block of `detect_environment` (lines 104-111). -/
def detectReq (repo : RepoTree) : DetectSt :=
  match repo.requirementsTxt with
  | some ls => (["requirements.txt"], some "pip", parseRequirementsTxt ls)
  | none => ([], none, [])

/-- The `environment.yml` block (lines 114-122): the file is recorded
whenever present; it is parsed (and may raise) only when no earlier
manifest fixed the environment type. -/
def detectYml (repo : RepoTree) (st : DetectSt) : Except String DetectSt :=
  match repo.environmentYml with
  | none => Except.ok st
  | some c =>
      match st.2.1 with
      | some t => Except.ok (st.1 ++ ["environment.yml"], some t, st.2.2)
      | none =>
          (parseEnvironmentYml c).map fun ds =>
            (st.1 ++ ["environment.yml"], some "conda", ds)

/-- The `pyproject.toml` block (lines 125-133). -/
def detectPyproject (tomliAvailable : Bool) (repo : RepoTree) (st : DetectSt) :
    Except String DetectSt :=
  match repo.pyprojectToml with
  | none => Except.ok st
  | some c =>
      match st.2.1 with
      | some t => Except.ok (st.1 ++ ["pyproject.toml"], some t, st.2.2)
      | none =>
          (parsePyprojectToml tomliAvailable c).map fun ds =>
            (st.1 ++ ["pyproject.toml"], some "poetry", ds)

/-- The `Pipfile` block (lines 136-144). -/
def detectPipfile (tomliAvailable : Bool) (repo : RepoTree) (st : DetectSt) :
    Except String DetectSt :=
  match repo.pipfile with
  | none => Except.ok st
  | some c =>
      match st.2.1 with
      | some t => Except.ok (st.1 ++ ["Pipfile"], some t, st.2.2)
      | none =>
          (parsePipfile tomliAvailable c).map fun ds =>
            (st.1 ++ ["Pipfile"], some "pipenv", ds)

/-- `detect_environment` (env_detector.py lines 97-156): run the four blocks
in order; raise `NoEnvironmentDetectedError` when no manifest fixed an
environment type (lines 146-149); otherwise return the `EnvironmentInfo`
(lines 151-156). -/
def detectEnvironment (tomliAvailable : Bool) (repo : RepoTree) :
    Except String EnvironmentInfo :=
  (detectYml repo (detectReq repo)).bind fun st =>
    (detectPyproject tomliAvailable repo st).bind fun st =>
      (detectPipfile tomliAvailable repo st).bind fun st =>
        match st.2.1 with
        | none => Except.error
            "No environment files detected. Supported: requirements.txt, environment.yml, pyproject.toml, Pipfile"
        | some t => Except.ok ⟨t, st.2.2, st.1, "python:3.11-slim"⟩

/-- The environment type of a detection outcome (`none` on error). -/
def envTypeOf : Except String EnvironmentInfo → Option String
  | Except.ok info => some info.envType
  | Except.error _ => none

/-! ## C7 — range-capable PDF streaming
(`backend/app/api/routes/papers.py`, `get_paper_viewer` lines 335-385).

The endpoint is embedded from the point where the stored PDF has been
resolved (line 336): the inputs are the file's bytes and the optional
`Range` header value; the output is the HTTP response shape.  Python's
`int()` is modelled for ASCII inputs (optional surrounding whitespace,
optional sign, decimal digits with single underscores between digits). -/

/-- Accumulating step of decimal parsing with Python's underscore rule:
an underscore must sit between two digits. -/
def digitsUndGo (acc : Nat) : Str → Option Nat
  | [] => some acc
  | c :: cs =>
      if c = '_' then
        match cs with
        | [] => none
        | d :: ds =>
            if d.isDigit then digitsUndGo (acc * 10 + (d.toNat - 48)) ds
            else none
      else if c.isDigit then digitsUndGo (acc * 10 + (c.toNat - 48)) cs
      else none

/-- Decimal digit run (with Python's underscore rule); `none` when empty or
not a digit run. -/
def digitsUnd : Str → Option Nat
  | [] => none
  | c :: cs => if c.isDigit then digitsUndGo (c.toNat - 48) cs else none

/-- ASCII model of Python `int(s)`: optional surrounding whitespace,
optional sign, decimal digits. -/
def pyInt (s : Str) : Option Int :=
  match pyStrip s with
  | [] => none
  | c :: cs =>
      if c = '+' then (digitsUnd cs).map fun n => (n : Int)
      else if c = '-' then (digitsUnd cs).map fun n => -(n : Int)
      else (digitsUnd (c :: cs)).map fun n => (n : Int)

/-- Python `s.replace(pat, "")`: delete every (leftmost-first,
non-overlapping) occurrence of `pat`.  `fuel` bounds the scan; each step
consumes at least one character, so fuel equal to the string length makes
the embedding scan the whole string. -/
def pyReplaceDelFuel (pat : Str) : Nat → Str → Str
  | _, [] => []
  | 0, s => s
  | fuel + 1, c :: cs =>
      if pat.isPrefixOf (c :: cs) ∧ pat ≠ [] then
        pyReplaceDelFuel pat fuel ((c :: cs).drop pat.length)
      else c :: pyReplaceDelFuel pat fuel cs

/-- Python `s.replace(pat, "")` for non-empty `pat`. -/
def pyReplaceDel (pat s : Str) : Str := pyReplaceDelFuel pat s.length s

/-- Decimal rendering of a natural number (Python `str(n)` for `n ≥ 0`);
`fuel` bounds the digit count, `n + 1` always suffices. -/
def natDigitsFuel : Nat → Nat → Str
  | 0, _ => []
  | fuel + 1, n =>
      if n < 10 then [Char.ofNat (48 + n)]
      else natDigitsFuel fuel (n / 10) ++ [Char.ofNat (48 + n % 10)]

/-- Python `str(n)` for a natural number. -/
def natToStr (n : Nat) : Str := natDigitsFuel (n + 1) n

/-- The HTTP response shapes of `get_paper_viewer` (papers.py lines
339-385): `206` with a chunk and a `Content-Range`, `416`, `400`, or the
full-file `FileResponse`. -/
inductive ViewerResp where
  | fullFile (content : List Nat) (contentLength : Nat)
  | partialContent (content : List Nat) (contentRange : Str) (contentLength : Nat)
  | notSatisfiable
  | badRequest
deriving DecidableEq, Repr

/-- `get_paper_viewer`'s range handling (papers.py lines 335-385), from the
resolved file onward: parse the header (`replace("bytes=", "")`, split on
`-`, `int()` with empty-start defaulting to 0 and empty-end defaulting to
`file_size - 1`), validate (negative / out-of-range / inverted → 416,
non-numeric or wrong shape → 400), then serve
`file[start : start + (end - start + 1)]` with
`Content-Range: bytes {start}-{end}/{file_size}`. -/
def getPaperViewer (file : List Nat) (rangeHeader : Option Str) : ViewerResp :=
  let fileSize := file.length
  match rangeHeader with
  | none => ViewerResp.fullFile file fileSize
  | some h =>
      if ¬ ("bytes=".toList.isPrefixOf h) then ViewerResp.badRequest
      else
        match (pyReplaceDel "bytes=".toList h).splitOn '-' with
        | [startStr, endStr] =>
            let startv : Option Int :=
              if startStr = [] then some 0 else pyInt startStr
            let endv : Option Int :=
              if endStr = [] then some ((fileSize : Int) - 1) else pyInt endStr
            match startv, endv with
            | some s, some e =>
                if s < 0 ∨ e < 0 then ViewerResp.notSatisfiable
                else if s ≥ (fileSize : Int) ∨ e ≥ (fileSize : Int) then
                  ViewerResp.notSatisfiable
                else if s > e then ViewerResp.notSatisfiable
                else
                  let chunk := (file.drop s.toNat).take (e - s + 1).toNat
                  ViewerResp.partialContent chunk
                    ("bytes ".toList ++ natToStr s.toNat ++ "-".toList ++
                      natToStr e.toNat ++ "/".toList ++ natToStr fileSize)
                    chunk.length
            | _, _ => ViewerResp.badRequest
        | _ => ViewerResp.badRequest

/-! ## C9 — hybrid search score fusion
(`backend/app/worker/rag/hybrid_search.py`, `normalize_scores` lines 9-32
and `hybrid_search` lines 35-87).

Scores are embedded as exact rationals.  `numpy.sqrt` (used inside
`np.std`) is the `sqrtFn` parameter; `np.std(xs)` is
`sqrtFn (mean ((x - mean)²))`, and the theorems assume only `sqrtFn 0 = 0`,
which holds for the real square root.  The `query`/`query_embedding`
arguments of `hybrid_search` are used only for logging and are omitted.
Python dicts built by comprehension are embedded as association lists with
later-binding-wins lookup; the `sorted(..., key=score, reverse=True)` call
is embedded as a stable descending insertion sort (Python's sort is stable,
and two stable sorts under the same key agree). -/

/-- `normalize_scores` (hybrid_search.py lines 9-32): z-score
normalisation, returning all-ones when the standard deviation is zero. -/
def normalizeScores (sqrtFn : ℚ → ℚ) (scores : List ℚ) : List ℚ :=
  if scores = [] then []
  else
    let mean := scores.sum / (scores.length : ℚ)
    let variance :=
      (scores.map fun x => (x - mean) ^ 2).sum / (scores.length : ℚ)
    let std := sqrtFn variance
    if std = 0 then List.replicate scores.length 1
    else scores.map fun x => (x - mean) / std

/-- Python dict lookup `d.get(k, dflt)` for a dict built from a list of
key/value pairs (later bindings win). -/
def dictGet (l : List (String × ℚ)) (k : String) (dflt : ℚ) : ℚ :=
  l.foldl (fun acc p => if p.1 = k then p.2 else acc) dflt

/-- `bm25_map` (hybrid_search.py line 68): doc ids zipped with the
normalised BM25 scores. -/
def mkBm25Map (sqrtFn : ℚ → ℚ) (bm25Results : List (String × ℚ)) :
    List (String × ℚ) :=
  (bm25Results.map Prod.fst).zip
    (normalizeScores sqrtFn (bm25Results.map Prod.snd))

/-- `dense_map` (hybrid_search.py lines 69-72): dense indices mapped
through `dense_to_doc_id`, zipped with the normalised dense scores. -/
def mkDenseMap (sqrtFn : ℚ → ℚ) (denseResults : List (Nat × ℚ))
    (denseToDocId : Nat → String) : List (String × ℚ) :=
  (denseResults.map fun p => denseToDocId p.1).zip
    (normalizeScores sqrtFn (denseResults.map Prod.snd))

/-- `all_doc_ids` (line 75): the union of the two key sets (Python iterates
a set in unspecified order; the embedding fixes first-occurrence order,
which the theorems do not depend on). -/
def allDocIds (bm dn : List (String × ℚ)) : List String :=
  (bm.map Prod.fst ++ dn.map Prod.fst).dedup

/-- The fusion loop (lines 76-82):
`score(doc) = alpha * bm25.get(doc, 0) + (1 - alpha) * dense.get(doc, 0)`. -/
def combineScores (alpha : ℚ) (bm dn : List (String × ℚ)) :
    List (String × ℚ) :=
  (allDocIds bm dn).map fun d =>
    (d, alpha * dictGet bm d 0 + (1 - alpha) * dictGet dn d 0)

/-- Stable descending insertion by score (ties keep existing order). -/
def insertDesc (x : String × ℚ) : List (String × ℚ) → List (String × ℚ)
  | [] => [x]
  | y :: ys => if x.2 ≥ y.2 then x :: y :: ys else y :: insertDesc x ys

/-- Stable sort by score, descending — the embedding of
`sorted(combined_scores.items(), key=lambda x: x[1], reverse=True)`
(line 85). -/
def sortByScoreDesc : List (String × ℚ) → List (String × ℚ)
  | [] => []
  | x :: xs => insertDesc x (sortByScoreDesc xs)

/-- `hybrid_search` (hybrid_search.py lines 35-87). -/
def hybridSearch (sqrtFn : ℚ → ℚ) (bm25Results : List (String × ℚ))
    (denseResults : List (Nat × ℚ)) (denseToDocId : Nat → String)
    (alpha : ℚ) (topK : Nat) : List (String × ℚ) :=
  (sortByScoreDesc
    (combineScores alpha (mkBm25Map sqrtFn bm25Results)
      (mkDenseMap sqrtFn denseResults denseToDocId))).take topK

/-! ## C10 — baseline claim extraction
(`backend/app/worker/claim_extractor.py`, `extract_claims_baseline` lines
35-80 and `_split_sentences` lines 120-149).

`re.search(pattern, sentence, re.IGNORECASE)` over the six claim-marker
regexes is modelled as the oracle parameter `search : String → Str → Bool`
(pattern source text, sentence); the extraction logic around it is
transcribed from the source.  The sentence-splitting regex
`([.!?])\s+` is implemented directly. -/

/-- `CLAIM_PATTERNS` (claim_extractor.py lines 25-32): the regex source
strings with their confidence weights. -/
def CLAIM_PATTERNS : List (String × ℚ) := [
  ("\\b(?:we|our|this|the)\\s+(?:show|demonstrate|prove|establish|find|observe|propose|introduce|present|develop)\\b", 7/10),
  ("\\b(?:our|this|the)\\s+(?:method|approach|model|system|framework|algorithm)\\s+(?:achieves|obtains|yields|produces|improves)\\b", 8/10),
  ("\\b(?:state-of-the-art|SOTA|best|superior|outperforms|beats)\\b", 6/10),
  ("\\b(?:significantly|substantially|considerably)\\s+(?:improves?|outperforms?|better)\\b", 7/10),
  ("\\b(?:we|our)\\s+(?:results?|experiments?|evaluation)\\s+(?:show|demonstrate|indicate|suggest)\\b", 7/10),
  ("\\b(?:we|our)\\s+(?:contribution|contribution|novelty)\\b", 6/10)]

/-- The scan of `re.split(r"([.!?])\s+", text)` (claim_extractor.py line
134-135): the raw alternating segment/separator list.  `skip` is true while
the scan is inside the `\s+` of a match (those whitespace characters belong
to the separator and join no segment). -/
def headIsWs : Str → Bool
  | [] => false
  | d :: _ => isWs d

/-- See `splitSentences`: the raw alternating segment/separator scan. -/
def splitSentGo (skip : Bool) (acc : Str) : Str → List Str
  | [] => [acc.reverse]
  | c :: cs =>
      if skip ∧ isWs c then splitSentGo true acc cs
      else if (c = '.' ∨ c = '!' ∨ c = '?') ∧ headIsWs cs then
        acc.reverse :: [c] :: splitSentGo true [] cs
      else splitSentGo false (c :: acc) cs

/-- The pairing loop of `_split_sentences` (lines 137-143): segment plus
its captured separator, stripped. -/
def recombinePairs : List Str → List Str
  | s0 :: s1 :: rest => pyStrip (s0 ++ s1) :: recombinePairs rest
  | _ => []

/-- `_split_sentences` (claim_extractor.py lines 120-149). -/
def splitSentences (text : Str) : List Str :=
  let raw := splitSentGo false [] text
  let result := recombinePairs raw ++
    (if raw.length % 2 = 1 then
      (match raw.getLast? with
       | some l => [pyStrip l]
       | none => [])
     else [])
  result.filter (· ≠ [])

/-- Python `text.find(sub)`: index of the leftmost occurrence (`none` for
Python's `-1`). -/
def pyFind (sub : Str) : Str → Option Nat
  | [] => if sub.isPrefixOf ([] : Str) then some 0 else none
  | c :: cs =>
      if sub.isPrefixOf (c :: cs) then some 0
      else (pyFind sub cs).map (· + 1)

/-- `Claim` (claim_extractor.py lines 13-21). -/
structure ClaimRec where
  id : String
  text : Str
  sectionLabel : Option String
  spans : List (List Nat)
  confidence : ℚ
deriving DecidableEq, Repr

/-- The best-match loop of `extract_claims_baseline` (lines 56-63): fold
over `CLAIM_PATTERNS`, keeping the highest confidence among matching
patterns (`best_confidence`, starting at 0) and whether any pattern was
retained (`best_match is not None`). -/
def bestMatchFold (search : String → Str → Bool) (st : Str)
    (pats : List (String × ℚ)) (init : ℚ × Bool) : ℚ × Bool :=
  pats.foldl (fun acc pw =>
    if search pw.1 st then
      (if pw.2 > acc.1 then (pw.2, true) else acc)
    else acc) init

/-- The per-sentence loop of `extract_claims_baseline` (lines 50-78),
threading the `claim_id` counter. -/
def extractClaimsGo (search : String → Str → Bool) (text : Str)
    (sectionName : Option String) (claimId : Nat) : List Str → List ClaimRec
  | [] => []
  | sentence :: rest =>
      let st := pyStrip sentence
      if st.length < 20 then
        extractClaimsGo search text sectionName claimId rest
      else
        let bm := bestMatchFold search st CLAIM_PATTERNS (0, false)
        if bm.2 then
          { id := String.mk ('c' :: natToStr claimId)
            text := st
            sectionLabel := sectionName
            spans := match pyFind st text with
                     | some i => [[i, i + st.length]]
                     | none => []
            confidence := bm.1 } ::
            extractClaimsGo search text sectionName (claimId + 1) rest
        else extractClaimsGo search text sectionName claimId rest

/-- `extract_claims_baseline` (claim_extractor.py lines 35-80). -/
def extractClaimsBaseline (search : String → Str → Bool) (text : Str)
    (sectionName : Option String) : List ClaimRec :=
  extractClaimsGo search text sectionName 0 (splitSentences text)

/-- The confidence weights of the patterns matching a sentence. -/
def matchingWeights (search : String → Str → Bool) (st : Str) : List ℚ :=
  (CLAIM_PATTERNS.filter fun pw => search pw.1 st).map Prod.snd

/-- A concrete `re.search` oracle under which every pattern matches every
sentence. -/
def searchAll : String → Str → Bool := fun _ _ => true

/-- The claim `extract_claims_baseline` emits on a 20-character one-sentence
text under the `searchAll` oracle: the maximum weight 0.8 wins. -/
def c10WitnessClaim : ClaimRec :=
  { id := "c0"
    text := List.replicate 20 'a'
    sectionLabel := none
    spans := [[0, 20]]
    confidence := 8/10 }

/-! ## C8 — section segmentation
(`backend/app/worker/section_segmenter.py`, `segment_paper` lines 32-94).

The text is a `List Char`; `text.split("\n")` is `splitNl` and the
`"\n".join` used to build each section's text is `intercalateNl`.  The nine
`SECTION_PATTERNS` regexes (lines 19-29) are implemented directly: each is
`^\s*(?:<digit>\s*\.?\s*)?(?:alt₁|alt₂|…)\s*$` under `re.match` with
`re.IGNORECASE`, where each alternative is a word sequence separated by
`\s+` (ASCII case folding; the inputs in the theorems are ASCII). -/

/-- Python `text.split("\n")`. -/
def splitNl : Str → List Str
  | [] => [[]]
  | c :: cs =>
      if c = '\n' then [] :: splitNl cs
      else
        match splitNl cs with
        | g :: gs => (c :: g) :: gs
        | [] => [[c]]

/-- `"\n".join(groups)`. -/
def intercalateNl : List Str → Str
  | [] => []
  | [g] => g
  | g :: gs => g ++ '\n' :: intercalateNl gs

/-- Case-insensitive literal word match: consume the (lowercase) word,
returning the rest of the line. -/
def matchWordCI : Str → Str → Option Str
  | [], s => some s
  | _ :: _, [] => none
  | wc :: ws, c :: cs => if c.toLower = wc then matchWordCI ws cs else none

/-- Match a `\s+`-separated word sequence followed by `\s*$`. -/
def matchWords : List Str → Str → Bool
  | [], s => s.all isWs
  | [w], s =>
      match matchWordCI w s with
      | some rest => rest.all isWs
      | none => false
  | w :: w2 :: ws, s =>
      match matchWordCI w s with
      | some rest =>
          match rest with
          | c :: cs => isWs c && matchWords (w2 :: ws) (cs.dropWhile isWs)
          | [] => false
      | none => false

/-- The optional numbered-heading group `(?:<digit>\s*\.?\s*)?`: consume
the digit, optional whitespace, an optional dot, optional whitespace. -/
def matchNumPrefix (d : Char) : Str → Option Str
  | [] => none
  | c :: cs =>
      if c = d then
        let r1 := cs.dropWhile isWs
        some (match r1 with
              | '.' :: t => t.dropWhile isWs
              | r1' => r1')
      else none

/-- One entry of `SECTION_PATTERNS`: the optional leading digit, the
keyword alternatives (lowercase word sequences), and the section name. -/
structure HeadPattern where
  num : Option Char
  alts : List (List Str)
  name : String

/-- `re.match(pattern, line, re.IGNORECASE)` for one heading pattern.
`(?:G)?K` matches iff `G`-then-`K` matches or `K` alone matches. -/
def matchHeadPat (p : HeadPattern) (line : Str) : Bool :=
  let s := line.dropWhile isWs
  (match p.num with
   | some d =>
       match matchNumPrefix d s with
       | some r => p.alts.any fun ws => matchWords ws r
       | none => false
   | none => false) ||
  p.alts.any fun ws => matchWords ws s

/-- `SECTION_PATTERNS` (section_segmenter.py lines 19-29). -/
def SECTION_PATTERNS : List HeadPattern := [
  ⟨none, [["abstract".toList], ["summary".toList]], "abstract"⟩,
  ⟨some '1', [["introduction".toList], ["intro".toList]], "introduction"⟩,
  ⟨some '2', [["related".toList, "work".toList], ["background".toList],
    ["literature".toList, "review".toList]], "related_work"⟩,
  ⟨some '3', [["method".toList], ["methodology".toList], ["approach".toList],
    ["model".toList], ["architecture".toList]], "method"⟩,
  ⟨some '4', [["experiment".toList], ["experiments".toList],
    ["evaluation".toList], ["result".toList], ["results".toList]], "results"⟩,
  ⟨some '5', [["discussion".toList], ["analysis".toList],
    ["interpretation".toList]], "discussion"⟩,
  ⟨some '6', [["conclusion".toList], ["conclusions".toList],
    ["summary".toList]], "conclusion"⟩,
  ⟨some '7', [["limitation".toList], ["limitations".toList],
    ["future".toList, "work".toList]], "limitations"⟩,
  ⟨none, [["appendix".toList], ["appendices".toList]], "appendix"⟩]

/-- The pattern scan of lines 56-60: the first matching pattern's section
name. -/
def matchesHeading (line : Str) : Option String :=
  (SECTION_PATTERNS.filter fun p => matchHeadPat p line).head?.map (·.name)

/-- `Section` (section_segmenter.py lines 9-15); `stop` is the Python
field `end` (a Lean keyword). -/
structure Section where
  name : String
  start : Nat
  stop : Nat
  text : Str
deriving DecidableEq, Repr

/-- `current_start = sum(len(line_item) + 1 for line_item in lines[:i])`
(line 77), as a function of the prefix. -/
def sumLen (ls : List Str) : Nat := (ls.map fun l => l.length + 1).sum

/-- The loop state of `segment_paper` (lines 44-46): accumulated sections,
`current_section`, `current_start`, `current_lines`. -/
structure SegState where
  sections : List Section
  curName : Option String
  curStart : Nat
  curLines : List Str

/-- Build a `Section` from the current group (lines 64-73). -/
def mkSection (name : String) (start : Nat) (lines : List Str) : Section :=
  let t := intercalateNl lines
  ⟨name, start, start + t.length, t⟩

/-- One iteration of the `for i, line in enumerate(lines)` loop
(lines 48-80). -/
def segStep (allLines : List Str) (st : SegState) (i : Nat) (line : Str) :
    SegState :=
  let stripped := pyStrip line
  if stripped = [] then
    if st.curLines ≠ [] then { st with curLines := st.curLines ++ [line] }
    else st
  else
    match matchesHeading stripped with
    | some name =>
        let sections' :=
          match st.curName with
          | some cn =>
              if st.curLines ≠ [] then
                st.sections ++ [mkSection cn st.curStart st.curLines]
              else st.sections
          | none => st.sections
        { sections := sections', curName := some name,
          curStart := sumLen (allLines.take i), curLines := [line] }
    | none => { st with curLines := st.curLines ++ [line] }

/-- The enumeration loop, threading the index. -/
def segLoop (allLines : List Str) : Nat → SegState → List Str → SegState
  | _, st, [] => st
  | i, st, line :: rest =>
      segLoop allLines (i + 1) (segStep allLines st i line) rest

/-- `segment_paper` (section_segmenter.py lines 32-94): run the loop over
`text.split("\n")`, then flush the final section (lines 83-92). -/
def segmentPaper (text : Str) : List Section :=
  let lines := splitNl text
  let final := segLoop lines 0 ⟨[], none, 0, []⟩ lines
  match final.curName with
  | some cn =>
      if final.curLines ≠ [] then
        final.sections ++ [mkSection cn final.curStart final.curLines]
      else final.sections
  | none => final.sections

/-- Loop invariant of `segment_paper` after processing the line prefix
`pre` of `allLines` (used once the first processed line was a heading):
the open section is non-empty, its lines are the tail of `pre` and its
start offset is the summed length of the lines before it, the closed
sections plus the open group reassemble `pre` under newline joining, and
every closed section's offsets address its text inside the full joined
text. -/
def SegInv (allLines pre : List Str) (st : SegState) : Prop :=
  st.curName.isSome ∧
  st.curLines ≠ [] ∧
  (∃ preG, pre = preG ++ st.curLines ∧ st.curStart = sumLen preG) ∧
  intercalateNl (st.sections.map Section.text ++ [intercalateNl st.curLines]) =
    intercalateNl pre ∧
  (∀ s ∈ st.sections, s.stop = s.start + s.text.length ∧
    ((intercalateNl allLines).drop s.start).take s.text.length = s.text) ∧
  pre ≠ []

/-! ## Helper lemmas -/

theorem splitNl_ne_nil : ∀ l : Str, splitNl l ≠ [] := by
  intro l
  cases l with
  | nil => simp [splitNl]
  | cons c cs =>
      rw [splitNl]
      by_cases h : c = '\n'
      · simp [h]
      · rw [if_neg h]
        cases splitNl cs <;> simp

theorem intercalateNl_splitNl : ∀ l : Str, intercalateNl (splitNl l) = l := by
  intro l
  induction l with
  | nil => rfl
  | cons c cs ih =>
      rw [splitNl]
      by_cases h : c = '\n'
      · rw [if_pos h]
        cases hs : splitNl cs with
        | nil => exact absurd hs (splitNl_ne_nil cs)
        | cons g gs =>
            rw [show intercalateNl ([] :: g :: gs) =
              [] ++ '\n' :: intercalateNl (g :: gs) from rfl]
            rw [← hs, ih, h]
            rfl
      · rw [if_neg h]
        cases hs : splitNl cs with
        | nil => exact absurd hs (splitNl_ne_nil cs)
        | cons g gs =>
            cases gs with
            | nil =>
                rw [show intercalateNl [c :: g] = c :: g from rfl]
                have : intercalateNl [g] = cs := by rw [← hs, ih]
                rw [show intercalateNl [g] = g from rfl] at this
                rw [this]
            | cons g2 gs' =>
                rw [show intercalateNl ((c :: g) :: g2 :: gs') =
                  (c :: g) ++ '\n' :: intercalateNl (g2 :: gs') from rfl]
                have : intercalateNl (g :: g2 :: gs') = cs := by rw [← hs, ih]
                rw [show intercalateNl (g :: g2 :: gs') =
                  g ++ '\n' :: intercalateNl (g2 :: gs') from rfl] at this
                rw [List.cons_append, this]

theorem iNl_append (a b : List Str) (ha : a ≠ []) (hb : b ≠ []) :
    intercalateNl (a ++ b) = intercalateNl a ++ '\n' :: intercalateNl b := by
  induction a with
  | nil => exact absurd rfl ha
  | cons x a' iha =>
      cases a' with
      | nil =>
          cases b with
          | nil => exact absurd rfl hb
          | cons y b' =>
              rw [show ([x] ++ y :: b' : List Str) = x :: y :: b' from rfl]
              rw [show intercalateNl (x :: y :: b') =
                x ++ '\n' :: intercalateNl (y :: b') from rfl]
              rfl
      | cons x2 a'' =>
          rw [show ((x :: x2 :: a'') ++ b : List Str) =
            x :: ((x2 :: a'') ++ b) from rfl]
          have hne : (x2 :: a'') ++ b ≠ [] := by simp
          cases hcc : (x2 :: a'') ++ b with
          | nil => exact absurd hcc hne
          | cons z zs =>
              rw [show intercalateNl (x :: z :: zs) =
                x ++ '\n' :: intercalateNl (z :: zs) from rfl]
              rw [← hcc, iha (by simp)]
              rw [show intercalateNl (x :: x2 :: a'') =
                x ++ '\n' :: intercalateNl (x2 :: a'') from rfl]
              simp

theorem iNl_concat (xs : List Str) (a : Str) (hxs : xs ≠ []) :
    intercalateNl (xs ++ [a]) = intercalateNl xs ++ '\n' :: a :=
  iNl_append xs [a] hxs (by simp)

theorem iNl_concat_append (xs : List Str) (y z : Str) :
    intercalateNl (xs ++ [y ++ z]) = intercalateNl (xs ++ [y]) ++ z := by
  cases hxs : xs with
  | nil => rfl
  | cons x xs' =>
      rw [← hxs, iNl_concat xs _ (by rw [hxs]; simp),
        iNl_concat xs _ (by rw [hxs]; simp)]
      simp

theorem drop_take_iNl : ∀ (preG G post all : List Str),
    all = preG ++ G ++ post → G ≠ [] →
    ((intercalateNl all).drop (sumLen preG)).take
      (intercalateNl G).length = intercalateNl G := by
  intro preG
  induction preG with
  | nil =>
      intro G post all hall hG
      subst hall
      rw [List.nil_append, show sumLen [] = 0 from rfl, List.drop_zero]
      cases hp : post with
      | nil => rw [List.append_nil, List.take_length]
      | cons p ps =>
          rw [iNl_append G (p :: ps) hG (by simp)]
          exact List.take_left _ _
  | cons p preG' ih =>
      intro G post all hall hG
      subst hall
      have h1 : (p :: preG') ++ G ++ post = p :: (preG' ++ G ++ post) := rfl
      rw [h1]
      have hne : preG' ++ G ++ post ≠ [] := by
        intro h
        rcases List.append_eq_nil.mp h with ⟨h2, _⟩
        rcases List.append_eq_nil.mp h2 with ⟨_, h3⟩
        exact hG h3
      cases hcc : preG' ++ G ++ post with
      | nil => exact absurd hcc hne
      | cons z zs =>
          rw [show intercalateNl (p :: z :: zs) =
            p ++ '\n' :: intercalateNl (z :: zs) from rfl, ← hcc]
          have hsum : sumLen (p :: preG') = (p.length + 1) + sumLen preG' := by
            simp [sumLen]
          rw [hsum]
          have hdrop : (p ++ '\n' :: intercalateNl (preG' ++ G ++ post)).drop
              (p.length + 1 + sumLen preG') =
              (intercalateNl (preG' ++ G ++ post)).drop (sumLen preG') := by
            rw [show (p ++ '\n' :: intercalateNl (preG' ++ G ++ post)) =
              (p ++ ['\n']) ++ intercalateNl (preG' ++ G ++ post) by simp]
            rw [show p.length + 1 + sumLen preG' =
              (p ++ ['\n']).length + sumLen preG' by simp]
            exact List.drop_append _
          rw [hdrop]
          exact ih G post _ rfl hG

theorem segInv_append_line (allLines pre : List Str) (st : SegState)
    (line : Str) (hinv : SegInv allLines pre st) :
    SegInv allLines (pre ++ [line])
      { st with curLines := st.curLines ++ [line] } := by
  obtain ⟨hname, hcl, ⟨preG, hpre, hstart⟩, hasm, hsec, hpne⟩ := hinv
  refine ⟨hname, by simp, ⟨preG, by rw [hpre, List.append_assoc], hstart⟩,
    ?_, hsec, by simp⟩
  show intercalateNl (st.sections.map Section.text ++
    [intercalateNl (st.curLines ++ [line])]) = intercalateNl (pre ++ [line])
  rw [iNl_concat st.curLines line hcl]
  rw [iNl_concat_append (st.sections.map Section.text)
    (intercalateNl st.curLines) ('\n' :: line)]
  rw [hasm, ← iNl_concat pre line hpne]

theorem segStep_inv (allLines pre : List Str) (st : SegState) (line : Str)
    (rest : List Str) (hall : allLines = pre ++ line :: rest)
    (hinv : SegInv allLines pre st) :
    SegInv allLines (pre ++ [line]) (segStep allLines st pre.length line) := by
  have hcl := hinv.2.1
  simp only [segStep]
  by_cases hblank : pyStrip line = []
  · rw [if_pos hblank, if_pos hcl]
    exact segInv_append_line allLines pre st line hinv
  · rw [if_neg hblank]
    cases hmh : matchesHeading (pyStrip line) with
    | none => exact segInv_append_line allLines pre st line hinv
    | some nm =>
        obtain ⟨hname, hcl', ⟨preG, hpre, hstart⟩, hasm, hsec, hpne⟩ := hinv
        obtain ⟨cn, hcn⟩ := Option.isSome_iff_exists.mp hname
        rw [hcn]
        dsimp only
        rw [if_pos hcl']
        refine ⟨rfl, by simp, ⟨pre, rfl, ?_⟩, ?_, ?_, by simp⟩
        · rw [hall, List.take_left]
        · show intercalateNl
            ((st.sections ++ [mkSection cn st.curStart st.curLines]).map
              Section.text ++ [intercalateNl [line]]) =
            intercalateNl (pre ++ [line])
          rw [List.map_append]
          rw [show ([mkSection cn st.curStart st.curLines].map Section.text)
            = [intercalateNl st.curLines] from rfl]
          rw [show intercalateNl [line] = line from rfl]
          rw [iNl_concat (st.sections.map Section.text ++
            [intercalateNl st.curLines]) line (by simp)]
          rw [hasm, ← iNl_concat pre line hpne]
        · intro s hs
          rcases List.mem_append.mp hs with hs | hs
          · exact hsec s hs
          · rw [List.mem_singleton] at hs
            subst hs
            constructor
            · rfl
            · show ((intercalateNl allLines).drop st.curStart).take
                (intercalateNl st.curLines).length = intercalateNl st.curLines
              rw [hstart]
              exact drop_take_iNl preG st.curLines (line :: rest) allLines
                (by rw [hall, hpre, List.append_assoc]) hcl'

theorem segLoop_inv (allLines : List Str) :
    ∀ (rest pre : List Str) (st : SegState),
      allLines = pre ++ rest → SegInv allLines pre st →
      SegInv allLines allLines (segLoop allLines pre.length st rest) := by
  intro rest
  induction rest with
  | nil =>
      intro pre st hall hinv
      rw [segLoop]
      rw [List.append_nil] at hall
      subst hall
      exact hinv
  | cons line rest' ih =>
      intro pre st hall hinv
      rw [segLoop]
      have hstep := segStep_inv allLines pre st line rest' hall hinv
      have hall' : allLines = (pre ++ [line]) ++ rest' := by
        rw [hall]
        simp
      have hrec := ih (pre ++ [line]) (segStep allLines st pre.length line)
        hall' hstep
      rw [List.length_append, List.length_singleton] at hrec
      exact hrec

theorem natDigitsFuel_irrel (n : Nat) : ∀ f g : Nat, n < f → n < g →
    natDigitsFuel f n = natDigitsFuel g n := by
  induction n using Nat.strong_induction_on with
  | _ n ih =>
    intro f g hf hg
    cases f with
    | zero => omega
    | succ f =>
      cases g with
      | zero => omega
      | succ g =>
        simp only [natDigitsFuel]
        by_cases h : n < 10
        · simp [h]
        · simp only [if_neg h]
          have hd : n / 10 < n := Nat.div_lt_self (by omega) (by norm_num)
          rw [ih (n / 10) hd f g (by omega) (by omega)]

theorem natToStr_eq (n : Nat) : natToStr n =
    if n < 10 then [Char.ofNat (48 + n)]
    else natToStr (n / 10) ++ [Char.ofNat (48 + n % 10)] := by
  unfold natToStr
  conv_lhs => rw [natDigitsFuel]
  by_cases h : n < 10
  · simp [h]
  · simp only [if_neg h]
    have hd : n / 10 < n := Nat.div_lt_self (by omega) (by norm_num)
    rw [natDigitsFuel_irrel (n / 10) n (n / 10 + 1) hd (by omega)]

theorem natToStr_digits (n : Nat) :
    natToStr n ≠ [] ∧ ∀ c ∈ natToStr n, c.isDigit = true := by
  induction n using Nat.strong_induction_on with
  | _ n ih =>
    rw [natToStr_eq]
    by_cases h : n < 10
    · simp only [if_pos h]
      refine ⟨by simp, ?_⟩
      intro c hc
      simp only [List.mem_singleton] at hc
      subst hc
      interval_cases n <;> decide
    · simp only [if_neg h]
      have hd : n / 10 < n := Nat.div_lt_self (by omega) (by norm_num)
      refine ⟨by simp, ?_⟩
      intro c hc
      rw [List.mem_append] at hc
      rcases hc with hc | hc
      · exact (ih (n / 10) hd).2 c hc
      · simp only [List.mem_singleton] at hc
        subst hc
        have hr : n % 10 < 10 := Nat.mod_lt _ (by omega)
        set r := n % 10 with hrdef
        interval_cases r <;> decide

theorem digit_not_ws (c : Char) (h : c.isDigit = true) : isWs c = false := by
  by_contra h'
  simp only [Bool.not_eq_false] at h'
  simp only [isWs, Bool.or_eq_true, decide_eq_true_eq] at h'
  rcases h' with ((((e | e) | e) | e) | e) | e <;> subst e <;>
    exact absurd h (by decide)

theorem digitsUndGo_single (acc : Nat) (c : Char) :
    digitsUndGo acc [c] =
      if c = '_' then none
      else if c.isDigit then digitsUndGo (acc * 10 + (c.toNat - 48)) []
      else none := rfl

theorem digitsUndGo_two (acc : Nat) (c d : Char) (ds : Str) :
    digitsUndGo acc (c :: d :: ds) =
      if c = '_' then
        (if d.isDigit then digitsUndGo (acc * 10 + (d.toNat - 48)) ds
         else none)
      else if c.isDigit then digitsUndGo (acc * 10 + (c.toNat - 48)) (d :: ds)
      else none := rfl

theorem digitsUndGo_digits (ds : Str) (h : ∀ c ∈ ds, c.isDigit = true)
    (acc : Nat) : digitsUndGo acc ds =
      some (ds.foldl (fun a c => a * 10 + (c.toNat - 48)) acc) := by
  induction ds generalizing acc with
  | nil => simp [digitsUndGo]
  | cons c cs ih =>
      have hc : c.isDigit = true := h c (by simp)
      have hne : c ≠ '_' := by
        intro e
        rw [e] at hc
        exact absurd hc (by decide)
      cases cs with
      | nil =>
          rw [digitsUndGo_single, if_neg hne, if_pos hc]
          simp [digitsUndGo]
      | cons d ds' =>
          rw [digitsUndGo_two, if_neg hne, if_pos hc, List.foldl_cons]
          exact ih (fun x hx => h x (by simp [hx])) _

theorem natToStr_foldl (n : Nat) :
    (natToStr n).foldl (fun a c => a * 10 + (c.toNat - 48)) 0 = n := by
  induction n using Nat.strong_induction_on with
  | _ n ih =>
    rw [natToStr_eq]
    by_cases h : n < 10
    · simp only [if_pos h]
      interval_cases n <;> decide
    · simp only [if_neg h]
      have hd : n / 10 < n := Nat.div_lt_self (by omega) (by norm_num)
      rw [List.foldl_append, ih (n / 10) hd, List.foldl_cons, List.foldl_nil]
      have hr : n % 10 < 10 := Nat.mod_lt _ (by omega)
      have hch : (Char.ofNat (48 + n % 10)).toNat - 48 = n % 10 := by
        set r := n % 10 with hrdef
        interval_cases r <;> decide
      rw [hch]
      omega

theorem pyStrip_of_no_ws (s : Str) (h : ∀ c ∈ s, isWs c = false) :
    pyStrip s = s := by
  unfold pyStrip
  have h1 : s.dropWhile isWs = s := by
    cases s with
    | nil => rfl
    | cons c cs =>
        rw [List.dropWhile_cons, if_neg (by simp [h c (by simp)])]
  rw [h1]
  have h2 : s.reverse.dropWhile isWs = s.reverse := by
    cases hs : s.reverse with
    | nil => rfl
    | cons c cs =>
        have hcs : c ∈ s := by
          rw [← List.mem_reverse, hs]
          simp
        rw [List.dropWhile_cons, if_neg (by simp [h c hcs])]
  rw [h2, List.reverse_reverse]

theorem pyInt_natToStr (n : Nat) : pyInt (natToStr n) = some (n : Int) := by
  obtain ⟨hne, hdig⟩ := natToStr_digits n
  have hstrip : pyStrip (natToStr n) = natToStr n :=
    pyStrip_of_no_ws _ (fun c hc => digit_not_ws c (hdig c hc))
  rw [pyInt]
  rw [hstrip]
  cases hn : natToStr n with
  | nil => exact absurd hn hne
  | cons c cs =>
      have hc : c.isDigit = true := hdig c (by rw [hn]; simp)
      have h1 : c ≠ '+' := by
        intro e
        rw [e] at hc
        exact absurd hc (by decide)
      have h2 : c ≠ '-' := by
        intro e
        rw [e] at hc
        exact absurd hc (by decide)
      simp only [if_neg h1, if_neg h2]
      rw [digitsUnd, if_pos hc,
        digitsUndGo_digits cs (fun d hd => hdig d (by rw [hn]; simp [hd]))]
      have : cs.foldl (fun a c => a * 10 + (c.toNat - 48)) (c.toNat - 48) =
          (c :: cs).foldl (fun a c => a * 10 + (c.toNat - 48)) 0 := by
        rw [List.foldl_cons]
        norm_num
      rw [this, ← hn, natToStr_foldl]
      simp

theorem isPrefixOf_append_self (l t : Str) : l.isPrefixOf (l ++ t) = true := by
  induction l with
  | nil => simp [List.isPrefixOf]
  | cons c cs ih => simp [List.isPrefixOf, ih]

theorem pyReplaceDelFuel_no_occur (p : Char) (ps : Str) (s : Str)
    (h : p ∉ s) : ∀ f : Nat, pyReplaceDelFuel (p :: ps) f s = s := by
  induction s with
  | nil => intro f; cases f <;> rfl
  | cons c cs ih =>
      intro f
      cases f with
      | zero => rfl
      | succ f =>
          have hpc : ¬(p = c) := fun e => h (by rw [e]; simp)
          have hpre : (p :: ps).isPrefixOf (c :: cs) = false := by
            simp [List.isPrefixOf, hpc]
          rw [pyReplaceDelFuel, if_neg (by simp [hpre])]
          rw [ih (fun hm => h (List.mem_cons_of_mem _ hm)) f]

theorem pyReplaceDel_strips_marker (p : Char) (ps rest : Str)
    (h : p ∉ rest) : pyReplaceDel (p :: ps) ((p :: ps) ++ rest) = rest := by
  unfold pyReplaceDel
  have hlen : ((p :: ps) ++ rest).length = (ps ++ rest).length + 1 := by
    simp
  rw [hlen]
  have hshape : (p :: ps) ++ rest = p :: (ps ++ rest) := by simp
  rw [hshape, pyReplaceDelFuel,
    if_pos ⟨by rw [← hshape]; exact isPrefixOf_append_self _ _, by simp⟩]
  have hdrop : (p :: (ps ++ rest)).drop (p :: ps).length = rest := by
    rw [← hshape]
    exact List.drop_left _ _
  rw [hdrop]
  exact pyReplaceDelFuel_no_occur p ps rest h _

theorem splitOn_append_cons (a b : Str) (h : '-' ∉ a) :
    (a ++ '-' :: b).splitOn '-' = a :: b.splitOn '-' := by
  induction a with
  | nil =>
      simp only [List.nil_append, List.splitOn]
      rw [List.splitOnP_cons]
      simp
  | cons c a' ih =>
      have hc : ¬(c = '-') := fun e => h (by rw [e]; simp)
      have ih' := ih (fun hm => h (List.mem_cons_of_mem _ hm))
      simp only [List.cons_append, List.splitOn] at ih' ⊢
      rw [List.splitOnP_cons, if_neg (by simp [hc]), ih']
      rfl

theorem splitOn_no_sep (b : Str) (h : '-' ∉ b) : b.splitOn '-' = [b] := by
  simp only [List.splitOn]
  refine List.splitOnP_eq_single _ _ ?_
  intro x hx
  simp only [beq_iff_eq]
  exact fun e => h (e ▸ hx)

theorem natToStr_no_dash (n : Nat) : '-' ∉ natToStr n := fun hm =>
  absurd ((natToStr_digits n).2 '-' hm) (by decide)

theorem natToStr_no_b (n : Nat) : 'b' ∉ natToStr n := fun hm =>
  absurd ((natToStr_digits n).2 'b' hm) (by decide)

theorem le_foldl_max (l : List ℚ) : ∀ a : ℚ, a ≤ l.foldl max a := by
  induction l with
  | nil => intro a; exact le_refl a
  | cons x l ih =>
      intro a
      rw [List.foldl_cons]
      exact le_trans (le_max_left a x) (ih _)

theorem mem_le_foldl_max (l : List ℚ) :
    ∀ (a x : ℚ), x ∈ l → x ≤ l.foldl max a := by
  induction l with
  | nil => intro a x hx; exact absurd hx (List.not_mem_nil x)
  | cons y l ih =>
      intro a x hx
      rw [List.foldl_cons]
      rcases List.mem_cons.mp hx with h | h
      · subst h
        exact le_trans (le_max_right a x) (le_foldl_max l _)
      · exact ih _ x h

theorem foldl_max_le (l : List ℚ) :
    ∀ a b : ℚ, a ≤ b → (∀ x ∈ l, x ≤ b) → l.foldl max a ≤ b := by
  induction l with
  | nil => intro a b hab _; exact hab
  | cons x l ih =>
      intro a b hab h
      rw [List.foldl_cons]
      exact ih _ b (max_le hab (h x (by simp))) fun y hy => h y (by simp [hy])

theorem bestMatchFold_true (search : String → Str → Bool) (st : Str) :
    ∀ (pats : List (String × ℚ)) (a : ℚ),
      bestMatchFold search st pats (a, true) =
        (((pats.filter fun pw => search pw.1 st).map Prod.snd).foldl max a,
          true) := by
  intro pats
  induction pats with
  | nil => intro a; rfl
  | cons pw pats ih =>
      intro a
      simp only [bestMatchFold, List.foldl_cons] at ih ⊢
      cases hsw : search pw.1 st with
      | false =>
          have hfe : (pw :: pats).filter (fun q => search q.1 st) =
              pats.filter (fun q => search q.1 st) := by
            rw [List.filter_cons]
            simp [hsw]
          rw [hfe]
          simp only [hsw, Bool.false_eq_true, if_false, ih]
      | true =>
          have hfe : (pw :: pats).filter (fun q => search q.1 st) =
              pw :: pats.filter (fun q => search q.1 st) := by
            rw [List.filter_cons]
            simp [hsw]
          rw [hfe]
          simp only [hsw, if_true, List.map_cons, List.foldl_cons]
          rcases le_or_lt pw.2 a with hle | hlt
          · rw [if_neg (not_lt.mpr hle), ih a, max_eq_left hle]
          · rw [if_pos hlt, ih pw.2, max_eq_right (le_of_lt hlt)]

theorem bestMatchFold_spec (search : String → Str → Bool) (st : Str) :
    ∀ pats : List (String × ℚ), (∀ pw ∈ pats, 0 < pw.2) →
      bestMatchFold search st pats (0, false) =
        (((pats.filter fun pw => search pw.1 st).map Prod.snd).foldl max 0,
          !((pats.filter fun pw => search pw.1 st).map Prod.snd).isEmpty) := by
  intro pats
  induction pats with
  | nil => intro _; rfl
  | cons pw pats ih =>
      intro hpos
      simp only [bestMatchFold, List.foldl_cons] at ih ⊢
      cases hsw : search pw.1 st with
      | false =>
          have hfe : (pw :: pats).filter (fun q => search q.1 st) =
              pats.filter (fun q => search q.1 st) := by
            rw [List.filter_cons]
            simp [hsw]
          rw [hfe]
          simp only [hsw, Bool.false_eq_true, if_false]
          exact ih fun q hq => hpos q (by simp [hq])
      | true =>
          have hfe : (pw :: pats).filter (fun q => search q.1 st) =
              pw :: pats.filter (fun q => search q.1 st) := by
            rw [List.filter_cons]
            simp [hsw]
          rw [hfe]
          simp only [hsw, if_true, List.map_cons, List.foldl_cons]
          rw [if_pos (hpos pw (by simp))]
          have hbt := bestMatchFold_true search st pats pw.2
          simp only [bestMatchFold] at hbt
          rw [hbt, max_eq_right (le_of_lt (hpos pw (by simp)))]
          simp

theorem claim_patterns_weights :
    ∀ pw ∈ CLAIM_PATTERNS, (0 : ℚ) < pw.2 ∧ (3/5 : ℚ) ≤ pw.2 ∧ pw.2 ≤ 4/5 := by
  intro pw hpw
  fin_cases hpw <;> norm_num

theorem extractClaimsGo_spec (search : String → Str → Bool) (text : Str)
    (sn : Option String) :
    ∀ (sentences : List Str) (claimId : Nat),
      (∀ c ∈ extractClaimsGo search text sn claimId sentences,
        20 ≤ c.text.length ∧ matchingWeights search c.text ≠ [] ∧
        c.confidence = (matchingWeights search c.text).foldl max 0) ∧
      (extractClaimsGo search text sn claimId sentences).length =
        (sentences.filter fun s => decide (20 ≤ (pyStrip s).length) &&
          !(matchingWeights search (pyStrip s)).isEmpty).length := by
  intro sentences
  induction sentences with
  | nil => intro claimId; exact ⟨fun c hc => absurd hc (List.not_mem_nil c), rfl⟩
  | cons sentence rest ih =>
      intro claimId
      have hbm := bestMatchFold_spec search (pyStrip sentence) CLAIM_PATTERNS
        (fun pw hpw => (claim_patterns_weights pw hpw).1)
      by_cases hlen : (pyStrip sentence).length < 20
      · have hgo : extractClaimsGo search text sn claimId
            (sentence :: rest) = extractClaimsGo search text sn claimId rest := by
          simp only [extractClaimsGo]
          rw [if_pos hlen]
        have hfil : (decide (20 ≤ (pyStrip sentence).length) &&
            !(matchingWeights search (pyStrip sentence)).isEmpty) = false := by
          simp [decide_eq_false (by omega : ¬ 20 ≤ (pyStrip sentence).length)]
        have hfe : (sentence :: rest).filter
            (fun s => decide (20 ≤ (pyStrip s).length) &&
              !(matchingWeights search (pyStrip s)).isEmpty) =
            rest.filter (fun s => decide (20 ≤ (pyStrip s).length) &&
              !(matchingWeights search (pyStrip s)).isEmpty) := by
          rw [List.filter_cons]
          simp [hfil]
        rw [hgo, hfe]
        exact ih claimId
      · cases hm : (!(matchingWeights search (pyStrip sentence)).isEmpty) with
        | false =>
            have hgo : extractClaimsGo search text sn claimId
                (sentence :: rest) =
                extractClaimsGo search text sn claimId rest := by
              simp only [extractClaimsGo]
              rw [if_neg hlen]
              have : (bestMatchFold search (pyStrip sentence)
                  CLAIM_PATTERNS (0, false)).2 = false := by
                rw [hbm]
                exact hm
              rw [if_neg (by rw [this]; exact Bool.false_ne_true)]
            have hfe : (sentence :: rest).filter
                (fun s => decide (20 ≤ (pyStrip s).length) &&
                  !(matchingWeights search (pyStrip s)).isEmpty) =
                rest.filter (fun s => decide (20 ≤ (pyStrip s).length) &&
                  !(matchingWeights search (pyStrip s)).isEmpty) := by
              rw [List.filter_cons]
              simp [hm]
            rw [hgo, hfe]
            exact ih claimId
        | true =>
            have hgo : extractClaimsGo search text sn claimId
                (sentence :: rest) =
                { id := String.mk ('c' :: natToStr claimId)
                  text := pyStrip sentence
                  sectionLabel := sn
                  spans := match pyFind (pyStrip sentence) text with
                           | some i => [[i, i + (pyStrip sentence).length]]
                           | none => []
                  confidence :=
                    (matchingWeights search (pyStrip sentence)).foldl max 0 } ::
                  extractClaimsGo search text sn (claimId + 1) rest := by
              simp only [extractClaimsGo]
              rw [if_neg hlen]
              rw [if_pos (by rw [hbm]; exact hm)]
              rw [hbm]
              rfl
            have hfe : (sentence :: rest).filter
                (fun s => decide (20 ≤ (pyStrip s).length) &&
                  !(matchingWeights search (pyStrip s)).isEmpty) =
                sentence :: rest.filter
                  (fun s => decide (20 ≤ (pyStrip s).length) &&
                    !(matchingWeights search (pyStrip s)).isEmpty) := by
              rw [List.filter_cons]
              simp [hm, decide_eq_true
                (by omega : 20 ≤ (pyStrip sentence).length)]
            rw [hgo, hfe]
            refine ⟨?_, by simp [(ih (claimId + 1)).2]⟩
            intro c hc
            rcases List.mem_cons.mp hc with hc | hc
            · subst hc
              refine ⟨?_, ?_, ?_⟩
              · show 20 ≤ (pyStrip sentence).length
                omega
              · show matchingWeights search (pyStrip sentence) ≠ []
                intro hnil
                rw [hnil] at hm
                exact absurd hm (by decide)
              · rfl
            · exact (ih (claimId + 1)).1 c hc

/-! ## Theorems -/

/-- C5: the storage layer accepts a `QualityScore` row exactly when one id is
set matching the scope and the other is null; in particular a row with
`scope = paper` and both ids non-null is rejected. -/
theorem qualityScore_scope_xor :
    (∀ r : QSRow, checkQualityScoreScope r = true ↔
      ((r.scope = QScope.paper ∧ r.paperId.isSome ∧ r.paperVersionId = none) ∨
       (r.scope = QScope.version ∧ r.paperVersionId.isSome ∧ r.paperId = none))) ∧
    (∀ a b : Nat,
      checkQualityScoreScope ⟨QScope.paper, some a, some b⟩ = false) := by
  constructor
  · intro r
    simp [checkQualityScoreScope]
  · intro a b
    simp [checkQualityScoreScope]

/-- C1: whenever the configured user is empty, `root`, `0`, or has UID 0, or
the CPU limit is not strictly positive, or the memory limit is unset/empty,
or the network mode is outside `{none, bridge}`, `execute_command` raises
`ExecutionError` during preflight — before any container launch is
attempted, for every behaviour of the memory-limit number parsing. -/
theorem execute_command_preflight_blocks_launch
    (parseMem : String → Option Nat) (s : ExecSettings)
    (h : s.dockerUser = "" ∨ s.dockerUser = "root" ∨ s.dockerUser = "0" ∨
         s.dockerUserUid = some 0 ∨
         s.dockerCpuLimit ≤ 0 ∨
         pyStripStr s.dockerMemoryLimit = "" ∨
         (s.dockerNetworkMode ≠ "none" ∧ s.dockerNetworkMode ≠ "bridge")) :
    isErr (executeCommandPrelaunch parseMem s) = true := by
  unfold executeCommandPrelaunch
  rcases h with h | h | h | h | h | h | h
  · rw [if_pos (Or.inl (by rw [h]; rfl))]
    rfl
  · rw [if_pos (Or.inr (Or.inl (by rw [h]; rfl)))]
    rfl
  · rw [if_pos (Or.inr (Or.inr (Or.inl (by rw [h]; rfl))))]
    rfl
  · rw [if_pos (Or.inr (Or.inr (Or.inr h)))]
    rfl
  all_goals
    by_cases hu : pyStripLower s.dockerUser = "" ∨
      pyStripLower s.dockerUser = "root" ∨ pyStripLower s.dockerUser = "0" ∨
      s.dockerUserUid = some 0
  case pos => rw [if_pos hu]; rfl
  case pos => rw [if_pos hu]; rfl
  case pos => rw [if_pos hu]; rfl
  · rw [if_neg hu, if_pos h]
    rfl
  all_goals by_cases hc : s.dockerCpuLimit ≤ 0
  case pos => rw [if_neg hu, if_pos hc]; rfl
  case pos => rw [if_neg hu, if_pos hc]; rfl
  · rw [if_neg hu, if_neg hc, if_pos (Or.inr h)]
    rfl
  · by_cases hm : s.dockerMemoryLimit = "" ∨ pyStripStr s.dockerMemoryLimit = ""
    · rw [if_neg hu, if_neg hc, if_pos hm]
      rfl
    · rw [if_neg hu, if_neg hc, if_neg hm, if_pos h]
      rfl

/-- Witness for C1: the configuration with user `root` (and otherwise valid
fields) is refused before launch. -/
theorem execute_command_preflight_blocks_launch_witness :
    isErr (executeCommandPrelaunch (fun _ => some 4294967296)
      ⟨"root", some 1000, 2, "4g", "none", true⟩) = true :=
  execute_command_preflight_blocks_launch (fun _ => some 4294967296)
    ⟨"root", some 1000, 2, "4g", "none", true⟩ (Or.inr (Or.inl rfl))

/-- C2: along the success path of `process_job`, any observer snapshot in
which the job status is `completed` already contains all three artifact rows
(report, notebook, badge): the running→completed commit happens only after
the artifact commit. -/
theorem process_job_artifacts_before_completed (n : Nat)
    (h : (sessionAfter n).committed.jobStatus = JStatus.completed) :
    AType.report ∈ (sessionAfter n).committed.artifacts ∧
    AType.notebook ∈ (sessionAfter n).committed.artifacts ∧
    AType.badge ∈ (sessionAfter n).committed.artifacts := by
  have hlen : processJobSuccessActions.length = 12 := by rfl
  rcases le_or_lt n 12 with hle | hlt
  · have key : ∀ m : Nat, m ≤ 12 →
        ((sessionAfter m).committed.jobStatus = JStatus.completed →
          AType.report ∈ (sessionAfter m).committed.artifacts ∧
          AType.notebook ∈ (sessionAfter m).committed.artifacts ∧
          AType.badge ∈ (sessionAfter m).committed.artifacts) := by decide
    exact key n hle h
  · have heq : sessionAfter n = sessionAfter 12 := by
      unfold sessionAfter
      rw [List.take_of_length_le (by omega), List.take_of_length_le (by omega)]
    rw [heq] at h ⊢
    have key : (sessionAfter 12).committed.jobStatus = JStatus.completed →
        AType.report ∈ (sessionAfter 12).committed.artifacts ∧
        AType.notebook ∈ (sessionAfter 12).committed.artifacts ∧
        AType.badge ∈ (sessionAfter 12).committed.artifacts := by decide
    exact key h

/-- Witness for C2: at the end of the success path (all 12 actions) the
status is `completed` and all three artifacts are visible. -/
theorem process_job_artifacts_before_completed_witness :
    AType.report ∈ (sessionAfter 12).committed.artifacts ∧
    AType.notebook ∈ (sessionAfter 12).committed.artifacts ∧
    AType.badge ∈ (sessionAfter 12).committed.artifacts :=
  process_job_artifacts_before_completed 12 (by decide)

set_option maxRecDepth 40000 in
/-- C3 (code bug): `_truncate_log` violates its byte budget.  On the input
of `test_executor.py::test_truncate_log` scaled down (`"x" * 120`, budget
100 bytes; the test uses `"x" * 2000` with the same budget and asserts the
result encodes to at most 100 bytes), the result encodes to 116 UTF-8
bytes: the code first shrinks to the 100-byte budget and then appends the
16-byte `"\n... [truncated]"` marker, overshooting the budget. -/
theorem truncate_log_exceeds_budget :
    utf8Len (truncateLog (List.replicate 120 'x') 100) = 116 ∧
    ¬ utf8Len (truncateLog (List.replicate 120 'x') 100) ≤ 100 := by
  constructor
  · decide
  · decide

set_option maxRecDepth 100000 in
/-- C8 counterexample: plain concatenation of the section texts does not
recover the input.  With no matching heading (`"x"`) all text is dropped
(`segment_paper` returns `[]`); and on a two-section text the newline
separating the sections (and nothing else) is lost, because each section's
text is the newline-join of its own lines only. -/
theorem segment_paper_concat_not_identity :
    ((segmentPaper "x".toList).map Section.text).flatten ≠ "x".toList ∧
    ((segmentPaper "Abstract\nA\nIntroduction\nB".toList).map
      Section.text).flatten ≠ "Abstract\nA\nIntroduction\nB".toList := by
  refine ⟨by decide, by decide⟩

/-- C8 (amended): for every text whose first line matches a section
heading, joining the section texts of `segment_paper` with single newlines
(the separators the loop never assigns to any section) recovers exactly
the full input text, and each section's `start`/`end` are correct
character offsets into the input: `end = start + len(text)` and
`text == input[start : end]`.  Text before the first heading-matching line
(all of the text when no line matches) is covered by no section. -/
theorem segment_paper_reassembly :
    ∀ (text l0 : Str) (rest : List Str) (nm : String),
      splitNl text = l0 :: rest →
      matchesHeading (pyStrip l0) = some nm →
      intercalateNl ((segmentPaper text).map Section.text) = text ∧
      ∀ s ∈ segmentPaper text,
        s.stop = s.start + s.text.length ∧
        (text.drop s.start).take s.text.length = s.text := by
  intro text l0 rest nm hsplit hmh
  have htext : intercalateNl (l0 :: rest) = text := by
    rw [← hsplit]
    exact intercalateNl_splitNl text
  have hstr : pyStrip l0 ≠ [] := by
    intro h
    rw [h, show matchesHeading ([] : Str) = none from by decide] at hmh
    exact Option.noConfusion hmh
  simp only [segmentPaper]
  rw [hsplit]
  rw [segLoop]
  have hstep0 : segStep (l0 :: rest) ⟨[], none, 0, []⟩ 0 l0 =
      ⟨[], some nm, 0, [l0]⟩ := by
    simp only [segStep]
    rw [if_neg hstr, hmh]
    rfl
  rw [hstep0, show (0 + 1 : Nat) = 1 from rfl]
  have hinv0 : SegInv (l0 :: rest) [l0] ⟨[], some nm, 0, [l0]⟩ :=
    ⟨rfl, by simp, ⟨[], rfl, rfl⟩, rfl, by simp, by simp⟩
  have hfin := segLoop_inv (l0 :: rest) rest [l0] ⟨[], some nm, 0, [l0]⟩
    rfl hinv0
  rw [show ([l0] : List Str).length = 1 from rfl] at hfin
  obtain ⟨hname, hcl, ⟨preG, hpre, hstart⟩, hasm, hsec, -⟩ := hfin
  obtain ⟨cn, hcn⟩ := Option.isSome_iff_exists.mp hname
  rw [hcn]
  dsimp only
  rw [if_pos hcl]
  constructor
  · rw [List.map_append,
      show ([mkSection cn (segLoop (l0 :: rest) 1 ⟨[], some nm, 0, [l0]⟩
        rest).curStart (segLoop (l0 :: rest) 1 ⟨[], some nm, 0, [l0]⟩
        rest).curLines].map Section.text) =
      [intercalateNl (segLoop (l0 :: rest) 1 ⟨[], some nm, 0, [l0]⟩
        rest).curLines] from rfl]
    rw [hasm, htext]
  · intro s hs
    rcases List.mem_append.mp hs with hs | hs
    · obtain ⟨h1, h2⟩ := hsec s hs
      rw [htext] at h2
      exact ⟨h1, h2⟩
    · rw [List.mem_singleton] at hs
      subst hs
      refine ⟨rfl, ?_⟩
      show ((text.drop (segLoop (l0 :: rest) 1 ⟨[], some nm, 0, [l0]⟩
        rest).curStart).take (intercalateNl (segLoop (l0 :: rest) 1
          ⟨[], some nm, 0, [l0]⟩ rest).curLines).length) =
        intercalateNl (segLoop (l0 :: rest) 1 ⟨[], some nm, 0, [l0]⟩
          rest).curLines
      rw [← htext, hstart]
      exact drop_take_iNl preG _ [] (l0 :: rest) (by simpa using hpre) hcl

/-- Witness for C8 (amended): the two-line text `Abstract\nHello world`,
whose first line is a heading, is exactly recovered by newline-joining the
section texts. -/
theorem segment_paper_reassembly_witness :
    intercalateNl ((segmentPaper "Abstract\nHello world".toList).map
      Section.text) = "Abstract\nHello world".toList :=
  (segment_paper_reassembly "Abstract\nHello world".toList
    "Abstract".toList ["Hello world".toList] "abstract"
    (by decide) (by decide)).1

/-- C10: every claim emitted by `extract_claims_baseline` has a stripped
sentence text of at least 20 characters that at least one claim-marker
pattern matches, its confidence is the maximum confidence weight among the
matching patterns and hence lies in `[0.6, 0.8]`; and exactly the sentences
with a match and at least 20 stripped characters produce claims (so a
sentence matching no pattern, or shorter than 20 characters, is never
emitted). -/
theorem extract_claims_confidence :
    ∀ (search : String → Str → Bool) (text : Str) (sn : Option String),
      (∀ c ∈ extractClaimsBaseline search text sn,
        20 ≤ c.text.length ∧
        matchingWeights search c.text ≠ [] ∧
        c.confidence = (matchingWeights search c.text).foldl max 0 ∧
        (3/5 : ℚ) ≤ c.confidence ∧ c.confidence ≤ 4/5) ∧
      (extractClaimsBaseline search text sn).length =
        ((splitSentences text).filter fun s =>
          decide (20 ≤ (pyStrip s).length) &&
            !(matchingWeights search (pyStrip s)).isEmpty).length := by
  intro search text sn
  obtain ⟨h1, h2⟩ := extractClaimsGo_spec search text sn (splitSentences text) 0
  refine ⟨?_, h2⟩
  intro c hc
  obtain ⟨hlen, hne, hconf⟩ := h1 c hc
  have hsub : ∀ w ∈ matchingWeights search c.text, (3/5 : ℚ) ≤ w ∧ w ≤ 4/5 := by
    intro w hw
    rw [matchingWeights] at hw
    obtain ⟨pw, hpw, rfl⟩ := List.mem_map.mp hw
    have hp2 := claim_patterns_weights pw (List.mem_of_mem_filter hpw)
    exact ⟨hp2.2.1, hp2.2.2⟩
  refine ⟨hlen, hne, hconf, ?_, ?_⟩
  · obtain ⟨w, hw⟩ := List.exists_mem_of_ne_nil _ hne
    rw [hconf]
    exact le_trans (hsub w hw).1 (mem_le_foldl_max _ 0 w hw)
  · rw [hconf]
    exact foldl_max_le _ 0 (4/5) (by norm_num) fun w hw => (hsub w hw).2

set_option maxRecDepth 40000 in
/-- Witness for C10: a 20-character one-sentence text under an oracle on
which every pattern matches yields one claim whose confidence is the
maximum weight 0.8, satisfying every clause. -/
theorem extract_claims_confidence_witness :
    20 ≤ c10WitnessClaim.text.length ∧
    matchingWeights searchAll c10WitnessClaim.text ≠ [] ∧
    c10WitnessClaim.confidence =
      (matchingWeights searchAll c10WitnessClaim.text).foldl max 0 ∧
    (3/5 : ℚ) ≤ c10WitnessClaim.confidence ∧
    c10WitnessClaim.confidence ≤ 4/5 :=
  (extract_claims_confidence searchAll (List.replicate 20 'a') none).1
    c10WitnessClaim
    (by
      have h1 : splitSentences (List.replicate 20 'a') =
          [List.replicate 20 'a'] := by decide
      have h2 : pyStrip (List.replicate 20 'a') = List.replicate 20 'a' := by
        decide
      have h3 : pyFind (List.replicate 20 'a') (List.replicate 20 'a') =
          some 0 := by decide
      have h4 : String.mk ('c' :: natToStr 0) = "c0" := by decide
      show c10WitnessClaim ∈
        extractClaimsBaseline searchAll (List.replicate 20 'a') none
      rw [extractClaimsBaseline, h1]
      simp only [extractClaimsGo, h2]
      norm_num [bestMatchFold, CLAIM_PATTERNS, searchAll, h3, h4,
        c10WitnessClaim])

set_option maxRecDepth 200000 in
/-- C7 counterexample: the suffix form `bytes=-500` on a 1000-byte file.
The claim says the response carries the Content-Range of the last 500 bytes
(`bytes 500-999/1000`); the code parses the empty start as 0 (papers.py
line 350) and serves the FIRST 501 bytes with `Content-Range:
bytes 0-500/1000`. -/
theorem get_paper_viewer_suffix_not_rfc :
    getPaperViewer (List.replicate 1000 0) (some "bytes=-500".toList) =
      ViewerResp.partialContent (List.replicate 501 0)
        "bytes 0-500/1000".toList 501 ∧
    ("bytes 0-500/1000".toList : Str) ≠ "bytes 500-999/1000".toList ∧
    (501 : Nat) ≠ 500 := by
  refine ⟨by decide, by decide, by decide⟩

/-- C7 (amended): on a stored PDF of `n` bytes, `bytes=0-` (for `n ≥ 1`)
returns 206 with exactly the `n` file bytes and
`Content-Range: bytes 0-(n-1)/n`; a range whose start is at or past `n`
returns 416; a header not starting with `bytes=` or with non-numeric parts
returns 400; and the suffix form `bytes=-b` is parsed with the missing
start defaulting to 0, returning 206 with the FIRST `b+1` bytes and
`Content-Range: bytes 0-b/n` when `b < n` (not the RFC-7233 last-`b`-bytes
semantics). -/
theorem get_paper_viewer_range :
    (∀ file : List Nat, 1 ≤ file.length →
      getPaperViewer file (some "bytes=0-".toList) =
        ViewerResp.partialContent file
          ("bytes ".toList ++ natToStr 0 ++ "-".toList ++
            natToStr (file.length - 1) ++ "/".toList ++ natToStr file.length)
          file.length) ∧
    (∀ (file : List Nat) (a b : Nat), file.length ≤ a →
      getPaperViewer file
        (some ("bytes=".toList ++ natToStr a ++ "-".toList ++ natToStr b)) =
        ViewerResp.notSatisfiable) ∧
    (∀ (file : List Nat) (h : Str), "bytes=".toList.isPrefixOf h = false →
      getPaperViewer file (some h) = ViewerResp.badRequest) ∧
    (∀ file : List Nat,
      getPaperViewer file (some "bytes=abc-def".toList) =
        ViewerResp.badRequest) ∧
    (∀ (file : List Nat) (b : Nat), b < file.length →
      getPaperViewer file (some ("bytes=-".toList ++ natToStr b)) =
        ViewerResp.partialContent (file.take (b + 1))
          ("bytes ".toList ++ natToStr 0 ++ "-".toList ++ natToStr b ++
            "/".toList ++ natToStr file.length)
          (b + 1)) := by
  refine ⟨?_, ?_, ?_, ?_, ?_⟩
  · -- (a) bytes=0-
    intro file hn
    simp only [getPaperViewer]
    rw [if_neg (show ¬¬("bytes=".toList.isPrefixOf "bytes=0-".toList = true)
      from by decide)]
    rw [show pyReplaceDel "bytes=".toList "bytes=0-".toList = "0-".toList
      from by decide]
    rw [show ("0-".toList).splitOn '-' = [['0'], []] from by decide]
    dsimp only
    rw [show (if (['0'] : Str) = [] then some (0 : Int) else pyInt ['0']) =
      some (0 : Int) from by decide]
    rw [if_pos (rfl : ([] : Str) = [])]
    dsimp only
    rw [if_neg (show ¬((0 : Int) < 0 ∨ (file.length : Int) - 1 < 0)
      from by omega)]
    rw [if_neg (show ¬((0 : Int) ≥ (file.length : Int) ∨
      (file.length : Int) - 1 ≥ (file.length : Int)) from by omega)]
    rw [if_neg (show ¬((0 : Int) > (file.length : Int) - 1) from by omega)]
    rw [show ((0 : Int)).toNat = 0 from rfl,
      show ((file.length : Int) - 1 - 0 + 1).toNat = file.length from by omega,
      show (((file.length : Int) - 1)).toNat = file.length - 1 from by omega,
      List.drop_zero, List.take_length]
  · -- (b) start at or past n → 416
    intro file a b hge
    have hshape : "bytes=".toList ++ natToStr a ++ "-".toList ++ natToStr b =
        "bytes=".toList ++ (natToStr a ++ '-' :: natToStr b) := by
      simp
    rw [hshape]
    simp only [getPaperViewer]
    rw [if_neg (show ¬¬("bytes=".toList.isPrefixOf
      ("bytes=".toList ++ (natToStr a ++ '-' :: natToStr b)) = true)
      from by simp [isPrefixOf_append_self])]
    have hbpat : ("bytes=".toList : Str) = 'b' :: "ytes=".toList := by decide
    have hnob : 'b' ∉ natToStr a ++ '-' :: natToStr b := by
      intro hm
      rcases List.mem_append.mp hm with hm | hm
      · exact natToStr_no_b a hm
      · rcases List.mem_cons.mp hm with hm | hm
        · exact absurd hm.symm (by decide)
        · exact natToStr_no_b b hm
    rw [hbpat, pyReplaceDel_strips_marker _ _ _ hnob]
    rw [splitOn_append_cons _ _ (natToStr_no_dash a),
      splitOn_no_sep _ (natToStr_no_dash b)]
    dsimp only
    rw [if_neg (natToStr_digits a).1, if_neg (natToStr_digits b).1,
      pyInt_natToStr, pyInt_natToStr]
    dsimp only
    rw [if_neg (show ¬(((a : Nat) : Int) < 0 ∨ ((b : Nat) : Int) < 0)
      from by omega)]
    rw [if_pos (Or.inl (show ((a : Nat) : Int) ≥ (file.length : Int)
      from by exact_mod_cast hge))]
  · -- (c1) malformed prefix → 400
    intro file h hpre
    simp only [getPaperViewer]
    rw [if_pos (show ¬("bytes=".toList.isPrefixOf h = true)
      from by rw [hpre]; exact Bool.false_ne_true)]
  · -- (c2) non-numeric range → 400
    intro file
    simp only [getPaperViewer]
    rw [if_neg (show ¬¬("bytes=".toList.isPrefixOf "bytes=abc-def".toList
      = true) from by decide)]
    rw [show pyReplaceDel "bytes=".toList "bytes=abc-def".toList =
      "abc-def".toList from by decide]
    rw [show ("abc-def".toList).splitOn '-' =
      [['a', 'b', 'c'], ['d', 'e', 'f']] from by decide]
    dsimp only
    rw [show (if (['a', 'b', 'c'] : Str) = [] then some (0 : Int)
      else pyInt ['a', 'b', 'c']) = none from by decide]
  · -- (d) suffix form serves the first b+1 bytes
    intro file b hb
    have hshape : "bytes=-".toList ++ natToStr b =
        "bytes=".toList ++ ('-' :: natToStr b) := by
      rw [show ("bytes=-".toList : Str) = "bytes=".toList ++ ['-'] from by decide]
      simp
    rw [hshape]
    simp only [getPaperViewer]
    rw [if_neg (show ¬¬("bytes=".toList.isPrefixOf
      ("bytes=".toList ++ ('-' :: natToStr b)) = true)
      from by simp [isPrefixOf_append_self])]
    have hbpat : ("bytes=".toList : Str) = 'b' :: "ytes=".toList := by decide
    have hnob : 'b' ∉ ('-' :: natToStr b : Str) := by
      intro hm
      rcases List.mem_cons.mp hm with hm | hm
      · exact absurd hm.symm (by decide)
      · exact natToStr_no_b b hm
    rw [hbpat, pyReplaceDel_strips_marker _ _ _ hnob]
    rw [show ('-' :: natToStr b : Str) = [] ++ '-' :: natToStr b from rfl,
      splitOn_append_cons _ _ (by simp), splitOn_no_sep _ (natToStr_no_dash b)]
    dsimp only
    rw [if_pos (rfl : ([] : Str) = [])]
    rw [if_neg (natToStr_digits b).1, pyInt_natToStr]
    dsimp only
    rw [if_neg (show ¬((0 : Int) < 0 ∨ ((b : Nat) : Int) < 0) from by omega)]
    rw [if_neg (show ¬((0 : Int) ≥ (file.length : Int) ∨
      ((b : Nat) : Int) ≥ (file.length : Int)) from by omega)]
    rw [if_neg (show ¬((0 : Int) > ((b : Nat) : Int)) from by omega)]
    rw [show ((0 : Int)).toNat = 0 from rfl,
      show (((b : Nat) : Int) - 0 + 1).toNat = b + 1 from by omega,
      show (((b : Nat) : Int)).toNat = b from by omega,
      List.drop_zero, List.length_take]
    congr 1
    omega

/-- Witness for C7: the single-byte file `[7]` served under `bytes=0-`, and
the file `[1, 2, 3]` under the suffix form `bytes=-1`. -/
theorem get_paper_viewer_range_witness :
    getPaperViewer [7] (some "bytes=0-".toList) =
      ViewerResp.partialContent [7]
        ("bytes ".toList ++ natToStr 0 ++ "-".toList ++ natToStr 0 ++
          "/".toList ++ natToStr 1) 1 ∧
    getPaperViewer [1, 2, 3] (some ("bytes=-".toList ++ natToStr 1)) =
      ViewerResp.partialContent [1, 2]
        ("bytes ".toList ++ natToStr 0 ++ "-".toList ++ natToStr 1 ++
          "/".toList ++ natToStr 3) 2 :=
  ⟨get_paper_viewer_range.1 [7] (by decide),
   get_paper_viewer_range.2.2.2.2 [1, 2, 3] 1 (by decide)⟩

theorem mem_insertDesc (x a : String × ℚ) (l : List (String × ℚ)) :
    a ∈ insertDesc x l ↔ a = x ∨ a ∈ l := by
  induction l with
  | nil => simp [insertDesc]
  | cons y ys ih =>
      unfold insertDesc
      by_cases h : x.2 ≥ y.2
      · simp [h]
      · simp only [if_neg h, List.mem_cons, ih]
        tauto

theorem mem_sortByScoreDesc (a : String × ℚ) (l : List (String × ℚ)) :
    a ∈ sortByScoreDesc l ↔ a ∈ l := by
  induction l with
  | nil => simp [sortByScoreDesc]
  | cons y ys ih => simp [sortByScoreDesc, mem_insertDesc, ih]

/-- C9: `normalize_scores` maps every non-empty constant score list to the
all-ones list of the same length (not to z-scores of 0), and every pair
emitted by `hybrid_search` carries the weighted fusion score
`alpha * norm_bm25.get(doc, 0) + (1 - alpha) * norm_dense.get(doc, 0)`.
`sqrtFn` models `numpy.sqrt`; only `sqrtFn 0 = 0` is assumed. -/
theorem normalize_scores_fusion :
    (∀ sqrtFn : ℚ → ℚ, sqrtFn 0 = 0 →
      ∀ (scores : List ℚ) (c : ℚ), scores ≠ [] → (∀ x ∈ scores, x = c) →
        normalizeScores sqrtFn scores = List.replicate scores.length 1) ∧
    (∀ (sqrtFn : ℚ → ℚ) (bm25Results : List (String × ℚ))
        (denseResults : List (Nat × ℚ)) (denseToDocId : Nat → String)
        (alpha : ℚ) (topK : Nat),
      ∀ p ∈ hybridSearch sqrtFn bm25Results denseResults denseToDocId
          alpha topK,
        p.2 = alpha * dictGet (mkBm25Map sqrtFn bm25Results) p.1 0 +
          (1 - alpha) *
            dictGet (mkDenseMap sqrtFn denseResults denseToDocId) p.1 0) := by
  constructor
  · intro sqrtFn hs scores c hne hall
    simp only [normalizeScores, if_neg hne]
    have hlen : ((scores.length : ℚ)) ≠ 0 := by
      have : scores.length ≠ 0 := fun h => hne (List.eq_nil_of_length_eq_zero h)
      exact_mod_cast this
    have hsum : scores.sum = (scores.length : ℚ) * c := by
      rw [List.sum_eq_card_nsmul scores c hall, nsmul_eq_mul]
    have hmean : scores.sum / (scores.length : ℚ) = c := by
      rw [hsum]
      field_simp
    simp only [hmean]
    have hvar : (scores.map fun x => (x - c) ^ 2).sum = 0 := by
      apply List.sum_eq_zero
      intro y hy
      obtain ⟨x, hx, rfl⟩ := List.mem_map.mp hy
      rw [hall x hx]
      ring
    rw [hvar, zero_div, hs, if_pos rfl]
  · intro sqrtFn bm25Results denseResults denseToDocId alpha topK p hp
    unfold hybridSearch at hp
    have h1 := List.take_subset _ _ hp
    rw [mem_sortByScoreDesc] at h1
    unfold combineScores at h1
    obtain ⟨d, _, heq⟩ := List.mem_map.mp h1
    rw [← heq]

/-- Witness for C9: the constant list `[2, 2]` normalises to all ones, and
the fused score of document `a` in a one-document search (with `alpha =
1/2`, the document absent on the dense side) satisfies the fusion
formula. -/
theorem normalize_scores_fusion_witness :
    normalizeScores (fun _ => 0) [2, 2] =
      List.replicate ([2, 2] : List ℚ).length 1 ∧
    ((("a", (1 : ℚ) / 2) : String × ℚ).2 =
      (1 / 2 : ℚ) * dictGet (mkBm25Map (fun _ => 0) [("a", 1)]) "a" 0 +
      (1 - 1 / 2) * dictGet (mkDenseMap (fun _ => 0) [] (fun _ => "x")) "a" 0) :=
  ⟨normalize_scores_fusion.1 (fun _ => 0) rfl [2, 2] 2 (by simp) (by simp),
   normalize_scores_fusion.2 (fun _ => 0) [("a", 1)] [] (fun _ => "x")
     (1 / 2) 5 ("a", 1 / 2)
     (by norm_num [hybridSearch, combineScores, allDocIds, mkBm25Map,
       mkDenseMap, normalizeScores, dictGet, sortByScoreDesc, insertDesc,
       List.dedup])⟩

/-- C6 counterexample: a repository whose only manifest is an
`environment.yml` that `yaml.safe_load` cannot parse.  A manifest file of
the preference order IS present in the repository root, yet
`detect_environment` raises `NoEnvironmentDetectedError` (the parse failure
is converted at env_detector.py lines 242-244), refuting the claimed "only
if none of the four manifest files is present". -/
theorem detect_environment_error_despite_manifest :
    isErr (detectEnvironment true
      ⟨none, some YmlContent.malformed, none, none⟩) = true ∧
    (⟨none, some YmlContent.malformed, none, none⟩ : RepoTree).environmentYml
      ≠ none := by
  constructor
  · rfl
  · intro h
    exact Option.noConfusion h

/-- C6 (amended): `detect_environment` fixes the environment type from the
first manifest present in the order requirements.txt (pip) →
environment.yml (conda) → pyproject.toml (poetry) → Pipfile (pipenv), and it
raises `NoEnvironmentDetectedError` exactly when either no manifest is
present, or the first-present manifest's parse fails (YAML/TOML parse error,
or `tomli` unavailable for the TOML manifests). -/
theorem detect_environment_first_match :
    (∀ (t : Bool) (repo : RepoTree) (ls : List Str),
      repo.requirementsTxt = some ls →
      envTypeOf (detectEnvironment t repo) = some "pip") ∧
    (∀ (t : Bool) (repo : RepoTree) (c : YmlContent) (ds : List Dependency),
      repo.requirementsTxt = none → repo.environmentYml = some c →
      parseEnvironmentYml c = Except.ok ds →
      envTypeOf (detectEnvironment t repo) = some "conda") ∧
    (∀ (t : Bool) (repo : RepoTree) (c : PyprojectContent) (ds : List Dependency),
      repo.requirementsTxt = none → repo.environmentYml = none →
      repo.pyprojectToml = some c →
      parsePyprojectToml t c = Except.ok ds →
      envTypeOf (detectEnvironment t repo) = some "poetry") ∧
    (∀ (t : Bool) (repo : RepoTree) (c : PipfileContent) (ds : List Dependency),
      repo.requirementsTxt = none → repo.environmentYml = none →
      repo.pyprojectToml = none → repo.pipfile = some c →
      parsePipfile t c = Except.ok ds →
      envTypeOf (detectEnvironment t repo) = some "pipenv") ∧
    (∀ (t : Bool) (repo : RepoTree),
      isErr (detectEnvironment t repo) = true ↔
        (repo.requirementsTxt = none ∧
          ((∃ c, repo.environmentYml = some c ∧
              isErr (parseEnvironmentYml c) = true) ∨
           (repo.environmentYml = none ∧
             ((∃ c, repo.pyprojectToml = some c ∧
                 isErr (parsePyprojectToml t c) = true) ∨
              (repo.pyprojectToml = none ∧
                ((∃ c, repo.pipfile = some c ∧
                    isErr (parsePipfile t c) = true) ∨
                 repo.pipfile = none))))))) := by
  refine ⟨?_, ?_, ?_, ?_, ?_⟩
  · rintro t ⟨req, yml, py, pf⟩ ls h
    cases h
    cases yml <;> cases py <;> cases pf <;>
      simp [detectEnvironment, detectReq, detectYml, detectPyproject,
        detectPipfile, envTypeOf, Except.bind]
  · rintro t ⟨req, yml, py, pf⟩ c ds h1 h2 hp
    cases h1
    cases h2
    cases py <;> cases pf <;>
      simp [detectEnvironment, detectReq, detectYml, detectPyproject,
        detectPipfile, envTypeOf, Except.bind, hp, Except.map]
  · rintro t ⟨req, yml, py, pf⟩ c ds h1 h2 h3 hp
    cases h1
    cases h2
    cases h3
    cases pf <;>
      simp [detectEnvironment, detectReq, detectYml, detectPyproject,
        detectPipfile, envTypeOf, Except.bind, hp, Except.map]
  · rintro t ⟨req, yml, py, pf⟩ c ds h1 h2 h3 h4 hp
    cases h1
    cases h2
    cases h3
    cases h4
    simp [detectEnvironment, detectReq, detectYml, detectPyproject,
      detectPipfile, envTypeOf, Except.bind, hp, Except.map]
  · rintro t ⟨req, yml, py, pf⟩
    cases req with
    | some ls =>
        cases yml <;> cases py <;> cases pf <;>
          simp [detectEnvironment, detectReq, detectYml, detectPyproject,
            detectPipfile, isErr, Except.bind]
    | none =>
        cases yml with
        | some c =>
            cases hc : parseEnvironmentYml c <;> cases py <;> cases pf <;>
              simp [detectEnvironment, detectReq, detectYml, detectPyproject,
                detectPipfile, isErr, Except.bind, hc, Except.map]
        | none =>
            cases py with
            | some c =>
                cases hc : parsePyprojectToml t c <;> cases pf <;>
                  simp [detectEnvironment, detectReq, detectYml,
                    detectPyproject, detectPipfile, isErr, Except.bind, hc,
                    Except.map]
            | none =>
                cases pf with
                | some c =>
                    cases hc : parsePipfile t c <;>
                      simp [detectEnvironment, detectReq, detectYml,
                        detectPyproject, detectPipfile, isErr, Except.bind,
                        hc, Except.map]
                | none =>
                    simp [detectEnvironment, detectReq, detectYml,
                      detectPyproject, detectPipfile, isErr, Except.bind]

/-- Witness for C6: a repository with both a `requirements.txt` (one line,
`numpy==1.24.0`) and a well-formed `environment.yml` is detected as `pip`
(first match), and the empty repository raises. -/
theorem detect_environment_first_match_witness :
    envTypeOf (detectEnvironment true
      ⟨some ["numpy==1.24.0".toList], some (YmlContent.doc []), none, none⟩) =
      some "pip" ∧
    isErr (detectEnvironment true ⟨none, none, none, none⟩) = true := by
  constructor
  · exact detect_environment_first_match.1 true
      ⟨some ["numpy==1.24.0".toList], some (YmlContent.doc []), none, none⟩
      ["numpy==1.24.0".toList] rfl
  · exact (detect_environment_first_match.2.2.2.2 true
      ⟨none, none, none, none⟩).mpr ⟨rfl, Or.inr ⟨rfl, Or.inr ⟨rfl, Or.inr rfl⟩⟩⟩

/-- C4 (code bug): the `Run` row built by `process_job` records the
record-creation instant, not the launch instant captured by
`execute_command`.  With the container launched at instant 0 and the `Run`
row created at instant 5, the stored `started_at` is 5 and differs from
`ExecutionResult.started_at` = 0. -/
theorem run_started_at_is_creation_time :
    (mkRunRow (executeCommandResult 0 0) 5).startedAt = 5 ∧
    (mkRunRow (executeCommandResult 0 0) 5).startedAt ≠
      (executeCommandResult 0 0).startedAt := by
  constructor
  · rfl
  · decide

end AranduRepro
